import Mathlib

/-!
Verification of the reference-api-buddy caching proxy.

This file gives a shallow embedding, in Lean 4, of the parts of the
repository `tinkermonkey/reference-api-buddy` that the verified claims are
about: the cache engine (`reference_api_buddy/cache/engine.py`), the TTL
manager (`core/ttl_manager.py`), the throttle manager
(`throttling/manager.py`), the security manager (`security/manager.py`)
and the request pipeline (`core/handler.py`).  Python byte strings are

modelled as `List Nat` (each element < 256), wall-clock times as `Nat`
seconds, and the SQLite `cache_entries` table as an association list kept
in insertion (rowid) order.  Library calls made by the code
(`hashlib.sha256`, `json`, `urllib.parse`) are themselves embedded
executably below.
-/

namespace Sha256

/-- Modulus for 32-bit words. -/
def M32 : Nat := 4294967296

/-- Right rotation of a 32-bit word. -/
def rotr (n x : Nat) : Nat := ((x >>> n) ||| (x <<< (32 - n))) % M32

/-- Bitwise complement of a 32-bit word. -/
def compl32 (x : Nat) : Nat := x ^^^ (M32 - 1)

def bigSigma0 (x : Nat) : Nat := (rotr 2 x) ^^^ (rotr 13 x) ^^^ (rotr 22 x)

def bigSigma1 (x : Nat) : Nat := (rotr 6 x) ^^^ (rotr 11 x) ^^^ (rotr 25 x)

def smallSigma0 (x : Nat) : Nat := (rotr 7 x) ^^^ (rotr 18 x) ^^^ (x >>> 3)

def smallSigma1 (x : Nat) : Nat := (rotr 17 x) ^^^ (rotr 19 x) ^^^ (x >>> 10)

def ch (x y z : Nat) : Nat := (x &&& y) ^^^ ((compl32 x) &&& z)

def maj (x y z : Nat) : Nat := (x &&& y) ^^^ (x &&& z) ^^^ (y &&& z)

/-- The 64 SHA-256 round constants. -/
def K : List Nat :=
  [1116352408, 1899447441, 3049323471, 3921009573, 961987163,
   1508970993, 2453635748, 2870763221, 3624381080, 310598401,
   607225278, 1426881987, 1925078388, 2162078206, 2614888103,
   3248222580, 3835390401, 4022224774, 264347078, 604807628,
   770255983, 1249150122, 1555081692, 1996064986, 2554220882,
   2821834349, 2952996808, 3210313671, 3336571891, 3584528711,
   113926993, 338241895, 666307205, 773529912, 1294757372,
   1396182291, 1695183700, 1986661051, 2177026350, 2456956037,
   2730485921, 2820302411, 3259730800, 3345764771, 3516065817,
   3600352804, 4094571909, 275423344, 430227734, 506948616,
   659060556, 883997877, 958139571, 1322822218, 1537002063,
   1747873779, 1955562222, 2024104815, 2227730452, 2361852424,
   2428436474, 2756734187, 3204031479, 3329325298]

/-- Initial hash state. -/
structure Hstate where
  a : Nat
  b : Nat
  c : Nat
  d : Nat
  e : Nat
  f : Nat
  g : Nat
  h : Nat
deriving Repr, DecidableEq

def H0 : Hstate :=
  ⟨1779033703, 3144134277, 1013904242, 2773480762,
   1359893119, 2600822924, 528734635, 1541459225⟩

/-- Big-endian encoding of a number as 8 bytes. -/
def be64 (n : Nat) : List Nat :=
  [(n >>> 56) % 256, (n >>> 48) % 256, (n >>> 40) % 256, (n >>> 32) % 256,
   (n >>> 24) % 256, (n >>> 16) % 256, (n >>> 8) % 256, n % 256]

/-- SHA-256 padding: append 0x80, zeros, and the 64-bit big-endian bit length. -/
def pad (msg : List Nat) : List Nat :=
  let len := msg.length
  let zeros := (119 - (len % 64)) % 64
  msg ++ (128 :: List.replicate zeros 0) ++ be64 (len * 8)

/-- Group bytes four at a time into big-endian 32-bit words. -/
def bytesToWords : List Nat → List Nat
  | a :: b :: c :: d :: rest => (((a * 256 + b) * 256 + c) * 256 + d) :: bytesToWords rest
  | _ => []

/-- Message-schedule extension from 16 to 64 words. -/
def extendWords (w : Array Nat) : Array Nat :=
  (List.range 48).foldl
    (fun w _ =>
      let t := w.size
      let x := (smallSigma1 (w.getD (t - 2) 0) + w.getD (t - 7) 0 +
                smallSigma0 (w.getD (t - 15) 0) + w.getD (t - 16) 0) % M32
      w.push x) w

/-- One SHA-256 round; `kw` is the sum of the round constant and schedule word. -/
def round (s : Hstate) (kw : Nat) : Hstate :=
  let t1 := (s.h + bigSigma1 s.e + ch s.e s.f s.g + kw) % M32
  let t2 := (bigSigma0 s.a + maj s.a s.b s.c) % M32
  ⟨(t1 + t2) % M32, s.a, s.b, s.c, (s.d + t1) % M32, s.e, s.f, s.g⟩

/-- Compress one 64-byte block into the running hash state. -/
def compress (s : Hstate) (block : List Nat) : Hstate :=
  let w := extendWords (Array.mk (bytesToWords block))
  let kw := (K.zip w.toList).map (fun p => (p.1 + p.2) % M32)
  let t := kw.foldl round s
  ⟨(s.a + t.a) % M32, (s.b + t.b) % M32, (s.c + t.c) % M32, (s.d + t.d) % M32,
   (s.e + t.e) % M32, (s.f + t.f) % M32, (s.g + t.g) % M32, (s.h + t.h) % M32⟩

/-- Split a byte list into 64-byte chunks (structural recursion on a fuel
bound so that the kernel can evaluate it; the fuel never runs out because
every step consumes at least one byte). -/
def chunks64Go : Nat → List Nat → List (List Nat)
  | 0, _ => []
  | _, [] => []
  | fuel + 1, l => l.take 64 :: chunks64Go fuel (l.drop 64)

/-- Split a byte list into 64-byte chunks. -/
def chunks64 (l : List Nat) : List (List Nat) := chunks64Go l.length l

/-- Lowercase hexadecimal digit for a value < 16. -/
def hexChar (n : Nat) : Char :=
  if n < 10 then Char.ofNat (48 + n) else Char.ofNat (87 + n)

/-- Eight lowercase hex characters of a 32-bit word, most significant first. -/
def wordHex (w : Nat) : List Char :=
  [hexChar ((w >>> 28) % 16), hexChar ((w >>> 24) % 16), hexChar ((w >>> 20) % 16),
   hexChar ((w >>> 16) % 16), hexChar ((w >>> 12) % 16), hexChar ((w >>> 8) % 16),
   hexChar ((w >>> 4) % 16), hexChar (w % 16)]

/-- The final hash state as a list of eight words. -/
def digestWords (s : Hstate) : List Nat := [s.a, s.b, s.c, s.d, s.e, s.f, s.g, s.h]

/-- SHA-256 of a byte string, rendered as 64 lowercase hex characters;
models Python `hashlib.sha256(data).hexdigest()`. -/
def sha256hex (msg : List Nat) : String :=
  let final := (chunks64 (pad msg)).foldl compress H0
  ⟨((digestWords final).map wordHex).flatten⟩

end Sha256

namespace Bytes

/-- UTF-8 encoding of a single character, as bytes. -/
def utf8EncodeChar (c : Char) : List Nat :=
  let n := c.toNat
  if n < 128 then [n]
  else if n < 2048 then [192 ||| (n >>> 6), 128 ||| (n &&& 63)]
  else if n < 65536 then
    [224 ||| (n >>> 12), 128 ||| ((n >>> 6) &&& 63), 128 ||| (n &&& 63)]
  else
    [240 ||| (n >>> 18), 128 ||| ((n >>> 12) &&& 63), 128 ||| ((n >>> 6) &&& 63), 128 ||| (n &&& 63)]

/-- UTF-8 encoding of a string, modelling Python `str.encode("utf-8")`. -/
def strBytes (s : String) : List Nat := (s.data.map utf8EncodeChar).flatten

/-- ASCII-range uppercasing of one character (Python `str.upper` on the
ASCII fragment relevant to HTTP methods). -/
def charUpperAscii (c : Char) : Char :=
  if 'a' ≤ c && c ≤ 'z' then Char.ofNat (c.toNat - 32) else c

/-- ASCII-range lowercasing of one character. -/
def charLowerAscii (c : Char) : Char :=
  if 'A' ≤ c && c ≤ 'Z' then Char.ofNat (c.toNat + 32) else c

/-- Python `str.upper()` (ASCII fragment). -/
def upperAscii (s : String) : String := ⟨s.data.map charUpperAscii⟩

/-- Python `str.lower()` (ASCII fragment). -/
def lowerAscii (s : String) : String := ⟨s.data.map charLowerAscii⟩

/-- Is a byte a UTF-8 continuation byte (10xxxxxx)? -/
def isCont (b : Nat) : Bool := 128 ≤ b && b < 192

/-- Strict UTF-8 decoding (fuelled structural recursion); rejects overlong
encodings, surrogates and out-of-range code points, like Python
`bytes.decode("utf-8")` in its default strict mode. -/
def utf8DecodeGo : Nat → List Nat → Option (List Char)
  | _, [] => some []
  | 0, _ => none
  | fuel + 1, b :: rest =>
    if b < 128 then (utf8DecodeGo fuel rest).map (Char.ofNat b :: ·)
    else if b < 194 then none
    else if b < 224 then
      match rest with
      | b1 :: rest' =>
        if isCont b1 then
          (utf8DecodeGo fuel rest').map (Char.ofNat ((b - 192) * 64 + (b1 - 128)) :: ·)
        else none
      | _ => none
    else if b < 240 then
      match rest with
      | b1 :: b2 :: rest' =>
        let n := (b - 224) * 4096 + (b1 - 128) * 64 + (b2 - 128)
        if isCont b1 && isCont b2 && 2048 ≤ n && (n < 55296 || 57344 ≤ n) then
          (utf8DecodeGo fuel rest').map (Char.ofNat n :: ·)
        else none
      | _ => none
    else if b < 245 then
      match rest with
      | b1 :: b2 :: b3 :: rest' =>
        let n := (b - 240) * 262144 + (b1 - 128) * 4096 + (b2 - 128) * 64 + (b3 - 128)
        if isCont b1 && isCont b2 && isCont b3 && 65536 ≤ n && n < 1114112 then
          (utf8DecodeGo fuel rest').map (Char.ofNat n :: ·)
        else none
      | _ => none
    else none

/-- Strict UTF-8 decoding of a byte string; models `bytes.decode("utf-8")`. -/
def utf8Decode (bs : List Nat) : Option String :=
  (utf8DecodeGo bs.length bs).map (fun cs => ⟨cs⟩)

/-- Lossy UTF-8 decoding: an invalid byte is replaced by U+FFFD and one byte
is consumed; approximates `errors="replace"` decoding. -/
def utf8DecodeReplaceGo : Nat → List Nat → List Char
  | _, [] => []
  | 0, _ => []
  | fuel + 1, b :: rest =>
    if b < 128 then Char.ofNat b :: utf8DecodeReplaceGo fuel rest
    else if 194 ≤ b && b < 224 then
      match rest with
      | b1 :: rest' =>
        if isCont b1 then
          Char.ofNat ((b - 192) * 64 + (b1 - 128)) :: utf8DecodeReplaceGo fuel rest'
        else Char.ofNat 65533 :: utf8DecodeReplaceGo fuel rest
      | _ => [Char.ofNat 65533]
    else if 224 ≤ b && b < 240 then
      match rest with
      | b1 :: b2 :: rest' =>
        let n := (b - 224) * 4096 + (b1 - 128) * 64 + (b2 - 128)
        if isCont b1 && isCont b2 && 2048 ≤ n && (n < 55296 || 57344 ≤ n) then
          Char.ofNat n :: utf8DecodeReplaceGo fuel rest'
        else Char.ofNat 65533 :: utf8DecodeReplaceGo fuel rest
      | _ => Char.ofNat 65533 :: utf8DecodeReplaceGo fuel rest.tail
    else if 240 ≤ b && b < 245 then
      match rest with
      | b1 :: b2 :: b3 :: rest' =>
        let n := (b - 240) * 262144 + (b1 - 128) * 4096 + (b2 - 128) * 64 + (b3 - 128)
        if isCont b1 && isCont b2 && isCont b3 && 65536 ≤ n && n < 1114112 then
          Char.ofNat n :: utf8DecodeReplaceGo fuel rest'
        else Char.ofNat 65533 :: utf8DecodeReplaceGo fuel rest
      | _ => Char.ofNat 65533 :: utf8DecodeReplaceGo fuel rest.tail
    else Char.ofNat 65533 :: utf8DecodeReplaceGo fuel rest

/-- Lossy UTF-8 decoding of a byte string. -/
def utf8DecodeReplace (bs : List Nat) : String :=
  ⟨utf8DecodeReplaceGo bs.length bs⟩

end Bytes

namespace Url

/-!
Embedding of the pieces of `urllib.parse` used by
`CacheEngine._normalize_url` (engine.py lines 71-94): `parse_qsl`,
`urlencode` (with `quote_plus`), `sorted`, and `urlunparse`.  A URL is
modelled at the granularity `urlparse` produces: a six-field structure
(scheme, netloc, path, params, query, fragment); `urlparse` itself, a
string-splitting stdlib function, is modelled as this structural
decomposition.
-/

/-- The result of Python `urllib.parse.urlparse`: scheme, network location,
path, params, query and fragment components. -/
structure ParsedUrl where
  scheme : String
  netloc : String
  path : String
  params : String
  query : String
  fragment : String
deriving Repr, DecidableEq

/-- Characters never quoted by `urllib.parse.quote` (its ALWAYS_SAFE set). -/
def alwaysSafe (c : Char) : Bool :=
  ('A' ≤ c && c ≤ 'Z') || ('a' ≤ c && c ≤ 'z') || ('0' ≤ c && c ≤ '9') ||
    c = '_' || c = '.' || c = '-' || c = '~'

/-- Uppercase hexadecimal digit for a value < 16 (percent-escapes use
uppercase hex in CPython). -/
def hexUpperChar (n : Nat) : Char :=
  if n < 10 then Char.ofNat (48 + n) else Char.ofNat (55 + n)

/-- Python `urllib.parse.quote_plus` with the default empty `safe` set, as
used by `urlencode`: space becomes `+`, safe characters pass through, and
every other character is percent-encoded byte by byte (UTF-8). -/
def quotePlus (s : String) : String :=
  ⟨(s.data.map (fun c =>
      if c = ' ' then ['+']
      else if alwaysSafe c then [c]
      else ((Bytes.utf8EncodeChar c).map
        (fun b => ['%', hexUpperChar (b / 16), hexUpperChar (b % 16)])).flatten)).flatten⟩

/-- Value of a hexadecimal digit character, if it is one. -/
def hexVal (c : Char) : Option Nat :=
  if '0' ≤ c && c ≤ '9' then some (c.toNat - 48)
  else if 'a' ≤ c && c ≤ 'f' then some (c.toNat - 87)
  else if 'A' ≤ c && c ≤ 'F' then some (c.toNat - 55)
  else none

/-- Turn a percent-encoded character sequence into bytes: a valid `%XX`
escape contributes the byte XX, any other character contributes its UTF-8
bytes (an invalid `%` is kept literally, as in CPython `unquote`). -/
def pctBytes : List Char → List Nat
  | [] => []
  | '%' :: c1 :: c2 :: rest =>
    match hexVal c1, hexVal c2 with
    | some h, some l => (h * 16 + l) :: pctBytes rest
    | _, _ => 37 :: pctBytes (c1 :: c2 :: rest)
  | c :: rest => Bytes.utf8EncodeChar c ++ pctBytes rest

/-- Python `urllib.parse.unquote_plus`: `+` means space, then
percent-escapes are decoded as UTF-8 bytes with lossy replacement. -/
def unquotePlus (s : String) : String :=
  Bytes.utf8DecodeReplace (pctBytes (s.data.map (fun c => if c = '+' then ' ' else c)))

/-- Split a character list on every occurrence of a separator, keeping
empty chunks, like Python `str.split(sep)`. -/
def splitChar (sep : Char) (cs : List Char) : List (List Char) :=
  cs.foldr
    (fun c acc =>
      if c = sep then [] :: acc
      else
        match acc with
        | h :: t => (c :: h) :: t
        | [] => [[c]])
    [[]]

/-- Split at the first occurrence of a separator, like
`str.split(sep, 1)` when the separator occurs. -/
def splitOnce (sep : Char) : List Char → Option (List Char × List Char)
  | [] => none
  | c :: rest =>
    if c = sep then some ([], rest)
    else
      match splitOnce sep rest with
      | some (a, b) => some (c :: a, b)
      | none => none

/-- Python `urllib.parse.parse_qsl` with default arguments: split the query
on `&`, skip empty chunks, skip chunks without `=`, skip pairs whose value
is empty, and unquote names and values. -/
def parseQsl (q : String) : List (String × String) :=
  (splitChar '&' q.data).filterMap fun chunk =>
    if chunk = [] then none
    else
      match splitOnce '=' chunk with
      | none => none
      | some (n, v) =>
        if v = [] then none else some (unquotePlus ⟨n⟩, unquotePlus ⟨v⟩)

/-- Python tuple comparison on string pairs, as used by `sorted` over the
result of `parse_qsl`. -/
def pairLe (p q : String × String) : Prop :=
  p.1 < q.1 ∨ (p.1 = q.1 ∧ p.2 ≤ q.2)

instance : DecidableRel pairLe := fun p q => by
  unfold pairLe; infer_instance

instance : IsTotal (String × String) pairLe where
  total p q := by
    rcases lt_trichotomy p.1 q.1 with h | h | h
    · exact Or.inl (Or.inl h)
    · rcases le_total p.2 q.2 with h2 | h2
      · exact Or.inl (Or.inr ⟨h, h2⟩)
      · exact Or.inr (Or.inr ⟨h.symm, h2⟩)
    · exact Or.inr (Or.inl h)

instance : IsTrans (String × String) pairLe where
  trans p q r hpq hqr := by
    rcases hpq with h1 | ⟨e1, l1⟩
    · rcases hqr with h2 | ⟨e2, _⟩
      · exact Or.inl (h1.trans h2)
      · exact Or.inl (e2 ▸ h1)
    · rcases hqr with h2 | ⟨e2, l2⟩
      · exact Or.inl (e1 ▸ h2)
      · exact Or.inr ⟨e1.trans e2, l1.trans l2⟩

instance : IsAntisymm (String × String) pairLe where
  antisymm p q hpq hqp := by
    rcases hpq with h1 | ⟨e1, l1⟩
    · rcases hqp with h2 | ⟨e2, _⟩
      · exact absurd (h1.trans h2) (lt_irrefl _)
      · exact absurd h1 (e2 ▸ lt_irrefl _)
    · rcases hqp with h2 | ⟨e2, l2⟩
      · exact absurd h2 (e1 ▸ lt_irrefl _)
      · exact Prod.ext e1 (le_antisymm l1 l2)

/-- Python `sorted` on the query pairs (a stable sort under a total order;
with a total order the output is determined by the multiset of elements). -/
def sortPairs (l : List (String × String)) : List (String × String) :=
  List.insertionSort pairLe l

/-- Python `urllib.parse.urlencode` on a list of pairs. -/
def urlencode (pairs : List (String × String)) : String :=
  String.intercalate "&" (pairs.map fun p => quotePlus p.1 ++ "=" ++ quotePlus p.2)

/-- Python `str.rstrip("/")`: remove all trailing slashes. -/
def rstripSlash (s : String) : String :=
  ⟨(s.data.reverse.dropWhile (· = '/')).reverse⟩

/-- Does a string start with `/` (Python `url[:1] == "/"` style check)? -/
def startsSlash (s : String) : Bool :=
  match s.data with
  | '/' :: _ => true
  | _ => false

/-- Does a string start with `//` (Python `url[:2] == "//"`)? -/
def startsSlashSlash (s : String) : Bool :=
  match s.data with
  | '/' :: '/' :: _ => true
  | _ => false

/-- Python `urllib.parse.urlunsplit`. -/
def urlunsplit (scheme netloc url query fragment : String) : String :=
  let url :=
    if netloc ≠ "" ∨ (url ≠ "" ∧ startsSlashSlash url) then
      let url := if url ≠ "" ∧ ¬ startsSlash url then "/" ++ url else url
      "//" ++ netloc ++ url
    else url
  let url := if scheme ≠ "" then scheme ++ ":" ++ url else url
  let url := if query ≠ "" then url ++ "?" ++ query else url
  if fragment ≠ "" then url ++ "#" ++ fragment else url

/-- Python `urllib.parse.urlunparse`. -/
def urlunparse (u : ParsedUrl) : String :=
  let url := if u.params ≠ "" then u.path ++ ";" ++ u.params else u.path
  urlunsplit u.scheme u.netloc url u.query u.fragment

end Url

namespace Json

/-!
Embedding of the pieces of the Python `json` module used by
`CacheEngine._normalize_request_body`: `json.loads` and
`json.dumps(obj, sort_keys=True, separators=(",", ":"))`.  JSON numbers
are modelled as integers only; a body containing a float literal is
outside the model (the parser fails on it, so theorems conditioned on a
successful parse simply do not cover such bodies).
-/

/-- A JSON value.  Objects keep their key/value pairs in insertion order,
as Python `dict` does. -/
inductive JVal where
  | null : JVal
  | bool (b : Bool) : JVal
  | num (n : Int) : JVal
  | str (s : String) : JVal
  | arr (xs : List JVal) : JVal
  | obj (kvs : List (String × JVal)) : JVal
deriving Inhabited

/-- JSON whitespace accepted between tokens. -/
def isWs (c : Char) : Bool := c = ' ' || c = '\t' || c = '\n' || c = '\r'

def skipWs (cs : List Char) : List Char := cs.dropWhile isWs

def isDigit (c : Char) : Bool := '0' ≤ c && c ≤ '9'

/-- Insert a key into an object under Python `dict` semantics: a repeated
key keeps its first position but takes the latest value. -/
def objInsert (k : String) (v : JVal) : List (String × JVal) → List (String × JVal)
  | [] => [(k, v)]
  | (k', v') :: rest => if k' = k then (k', v) :: rest else (k', v') :: objInsert k v rest

/-- Parse an integer numeral (sign, digits, no leading zero); fails when a
fraction or exponent follows, since floats are outside the model. -/
def parseNum (cs : List Char) : Option (JVal × List Char) :=
  let (neg, cs') := match cs with
    | '-' :: rest => (true, rest)
    | _ => (false, cs)
  let digits := cs'.takeWhile isDigit
  let rest := cs'.dropWhile isDigit
  if digits = [] then none
  else if digits.length > 1 ∧ digits.head? = some '0' then none
  else
    match rest with
    | '.' :: _ => none
    | 'e' :: _ => none
    | 'E' :: _ => none
    | _ =>
      let n : Nat := digits.foldl (fun acc c => acc * 10 + (c.toNat - 48)) 0
      some (.num (if neg then -(n : Int) else (n : Int)), rest)

/-- Parse the body of a JSON string literal after the opening quote. -/
def parseStrBody : Nat → List Char → Option (List Char × List Char)
  | 0, _ => none
  | _, [] => none
  | fuel + 1, c :: rest =>
    if c = '"' then some ([], rest)
    else if c = '\\' then
      match rest with
      | 'u' :: h1 :: h2 :: h3 :: h4 :: rest' =>
        match Url.hexVal h1, Url.hexVal h2, Url.hexVal h3, Url.hexVal h4 with
        | some a, some b, some c', some d =>
          let n := ((a * 16 + b) * 16 + c') * 16 + d
          if 55296 ≤ n ∧ n < 56320 then
            match rest' with
            | '\\' :: 'u' :: g1 :: g2 :: g3 :: g4 :: rest'' =>
              match Url.hexVal g1, Url.hexVal g2, Url.hexVal g3, Url.hexVal g4 with
              | some a2, some b2, some c2, some d2 =>
                let m := ((a2 * 16 + b2) * 16 + c2) * 16 + d2
                if 56320 ≤ m ∧ m < 57344 then
                  (parseStrBody fuel rest'').map
                    (fun p => (Char.ofNat ((n - 55296) * 1024 + (m - 56320) + 65536) :: p.1, p.2))
                else none
              | _, _, _, _ => none
            | _ => none
          else if 56320 ≤ n ∧ n < 57344 then none
          else (parseStrBody fuel rest').map (fun p => (Char.ofNat n :: p.1, p.2))
        | _, _, _, _ => none
      | e :: rest' =>
        let esc :=
          if e = '"' then some '"'
          else if e = '\\' then some '\\'
          else if e = '/' then some '/'
          else if e = 'b' then some (Char.ofNat 8)
          else if e = 'f' then some (Char.ofNat 12)
          else if e = 'n' then some (Char.ofNat 10)
          else if e = 'r' then some (Char.ofNat 13)
          else if e = 't' then some (Char.ofNat 9)
          else none
        match esc with
        | some ch => (parseStrBody fuel rest').map (fun p => (ch :: p.1, p.2))
        | none => none
      | [] => none
    else if c.toNat < 32 then none
    else (parseStrBody fuel rest).map (fun p => (c :: p.1, p.2))

mutual

/-- Parse one JSON value. -/
def parseVal : Nat → List Char → Option (JVal × List Char)
  | 0, _ => none
  | fuel + 1, cs =>
    match skipWs cs with
    | 'n' :: 'u' :: 'l' :: 'l' :: rest => some (.null, rest)
    | 't' :: 'r' :: 'u' :: 'e' :: rest => some (.bool true, rest)
    | 'f' :: 'a' :: 'l' :: 's' :: 'e' :: rest => some (.bool false, rest)
    | '"' :: rest => (parseStrBody rest.length rest).map (fun p => (.str ⟨p.1⟩, p.2))
    | '[' :: rest =>
      (match skipWs rest with
       | ']' :: rest' => some (.arr [], rest')
       | cs' =>
         match parseVal fuel cs' with
         | some (v, rest') => parseArrTail fuel [v] rest'
         | none => none)
    | '{' :: rest =>
      (match skipWs rest with
       | '}' :: rest' => some (.obj [], rest')
       | cs' =>
         match parseObjEntry fuel cs' with
         | some (k, v, rest') => parseObjTail fuel (objInsert k v []) rest'
         | none => none)
    | c :: rest => if c = '-' ∨ isDigit c then parseNum (c :: rest) else none
    | [] => none

/-- Parse the continuation of an array after at least one element. -/
def parseArrTail : Nat → List JVal → List Char → Option (JVal × List Char)
  | 0, _, _ => none
  | fuel + 1, acc, cs =>
    match skipWs cs with
    | ']' :: rest => some (.arr acc.reverse, rest)
    | ',' :: rest =>
      (match parseVal fuel rest with
       | some (v, rest') => parseArrTail fuel (v :: acc) rest'
       | none => none)
    | _ => none

/-- Parse one `"key": value` object entry. -/
def parseObjEntry : Nat → List Char → Option (String × JVal × List Char)
  | 0, _ => none
  | fuel + 1, cs =>
    match skipWs cs with
    | '"' :: rest =>
      (match parseStrBody rest.length rest with
       | some (k, rest') =>
         match skipWs rest' with
         | ':' :: rest'' =>
           (match parseVal fuel rest'' with
            | some (v, rest3) => some (⟨k⟩, v, rest3)
            | none => none)
         | _ => none
       | none => none)
    | _ => none

/-- Parse the continuation of an object after at least one entry.  The
accumulator holds the entries parsed so far in Python `dict` order. -/
def parseObjTail : Nat → List (String × JVal) → List Char → Option (JVal × List Char)
  | 0, _, _ => none
  | fuel + 1, acc, cs =>
    match skipWs cs with
    | '}' :: rest => some (.obj acc, rest)
    | ',' :: rest =>
      (match parseObjEntry fuel rest with
       | some (k, v, rest') => parseObjTail fuel (objInsert k v acc) rest'
       | none => none)
    | _ => none

end

/-- Python `json.loads`: parse one JSON document and require only
whitespace after it.  Numbers are restricted to integers (see above). -/
def jsonLoads (s : String) : Option JVal :=
  match parseVal (2 * s.length + 16) s.data with
  | some (v, rest) => if skipWs rest = [] then some v else none
  | none => none

/-- Object-key comparison used by `sort_keys=True`. -/
def keyLe (p q : String × JVal) : Prop := p.1 ≤ q.1

instance : DecidableRel keyLe := fun p q => by
  unfold keyLe; infer_instance

/-- Sort dictionary entries by key (Python `sorted` on the keys; stable). -/
def sortObj (kvs : List (String × JVal)) : List (String × JVal) :=
  List.insertionSort keyLe kvs

mutual

/-- Sort every object's keys, recursively.  `json.dumps(v, sort_keys=True)`
serializes each dictionary with its items in sorted-key order, which is
the same as serializing `canon v` in plain order. -/
def canon : JVal → JVal
  | .arr xs => .arr (canonArr xs)
  | .obj kvs => .obj (sortObj (canonObj kvs))
  | v => v

def canonArr : List JVal → List JVal
  | [] => []
  | x :: xs => canon x :: canonArr xs

def canonObj : List (String × JVal) → List (String × JVal)
  | [] => []
  | (k, v) :: kvs => (k, canon v) :: canonObj kvs

end

/-- Four-hex-digit unicode escape (lowercase hex, as CPython emits). -/
def uEscape (n : Nat) : List Char :=
  ['\\', 'u', Sha256.hexChar (n / 4096 % 16), Sha256.hexChar (n / 256 % 16),
   Sha256.hexChar (n / 16 % 16), Sha256.hexChar (n % 16)]

/-- Escaping of one character inside a JSON string under the default
`ensure_ascii=True`: short escapes for the usual control characters,
`\uXXXX` for other controls and all non-ASCII (surrogate pairs above
U+FFFF), everything else literal. -/
def escapeChar (c : Char) : List Char :=
  if c = '"' then ['\\', '"']
  else if c = '\\' then ['\\', '\\']
  else if c.toNat = 8 then ['\\', 'b']
  else if c.toNat = 9 then ['\\', 't']
  else if c.toNat = 10 then ['\\', 'n']
  else if c.toNat = 12 then ['\\', 'f']
  else if c.toNat = 13 then ['\\', 'r']
  else if c.toNat < 32 then uEscape c.toNat
  else if c.toNat < 127 then [c]
  else if c.toNat < 65536 then uEscape c.toNat
  else
    let m := c.toNat - 65536
    uEscape (55296 + m / 1024) ++ uEscape (56320 + m % 1024)

/-- Serialization of a JSON string literal. -/
def dumpStr (s : String) : String :=
  ⟨'"' :: (s.data.map escapeChar).flatten ++ ['"']⟩

mutual

/-- Serialize a JSON value with separators `(",", ":")` and no added
whitespace, in the stored key order. -/
def dumps : JVal → String
  | .null => "null"
  | .bool true => "true"
  | .bool false => "false"
  | .num n => toString n
  | .str s => dumpStr s
  | .arr xs => "[" ++ String.intercalate "," (dumpsArr xs) ++ "]"
  | .obj kvs => "\x7b" ++ String.intercalate "," (dumpsObj kvs) ++ "\x7d"

def dumpsArr : List JVal → List String
  | [] => []
  | x :: xs => dumps x :: dumpsArr xs

def dumpsObj : List (String × JVal) → List String
  | [] => []
  | (k, v) :: kvs => (dumpStr k ++ ":" ++ dumps v) :: dumpsObj kvs

end

/-- Python `json.dumps(obj, sort_keys=True, separators=(",", ":"))`:
every object's items are emitted in sorted-key order, i.e. the plain
serialization of the canonicalized value. -/
def dumpsSorted (v : JVal) : String := dumps (canon v)

end Json

namespace Cache

/-!
Embedding of `CacheEngine` (cache/engine.py).  The SQLite table
`cache_entries` (cache_key TEXT PRIMARY KEY, response_data, headers,
status_code, created_at, ttl_seconds, access_count, last_accessed) is a
list of rows in rowid order; `REPLACE INTO` deletes the conflicting row
and appends the new one.  Timestamps (`CURRENT_TIMESTAMP`, `int(time.time())`)
are `Nat` seconds.  The stored `headers` column holds
`json.dumps(response.headers)` and `get` returns `json.loads` of it; for
string-valued header dictionaries that round-trip is the identity, so the
model keeps the association list itself.  The engine is modelled as
constructed with a configuration, so a `TTLManager` is present
(`core/ttl_manager.py`).  `zlib.compress`/`zlib.decompress` are external
library calls; they are modelled as an injective framing that, like real
zlib, starts with the magic bytes 0x78 0x9c (which `get` checks for) and
whose decoder inverts the encoder and rejects ill-formed input.
-/

/-- One row of the `cache_entries` table. -/
structure Row where
  key : String
  data : List Nat
  headers : List (String × String)
  statusCode : Nat
  createdAt : Nat
  ttlSeconds : Nat
  accessCount : Nat
  lastAccessed : Nat
deriving Repr, DecidableEq

/-- The `_stats` counters of `CacheEngine`. -/
structure Stats where
  hits : Nat
  misses : Nat
  evictions : Nat
  sets : Nat
  expired : Nat
  compressed : Nat
  decompressed : Nat
deriving Repr, DecidableEq

/-- The `CachedResponse` dataclass (database/models.py). -/
structure CachedResponse where
  data : List Nat
  headers : List (String × String)
  statusCode : Nat
  createdAt : Option Nat
  ttlSeconds : Option Nat
  accessCount : Nat
  lastAccessed : Option Nat
deriving Repr, DecidableEq

/-- The `TTLManager` (core/ttl_manager.py): the configured default TTL
(`cache.default_ttl_seconds`, default 86400) and the domain mappings with
their optional `ttl_seconds` overrides. -/
structure TTLConfig where
  defaultTtl : Nat
  domainMappings : List (String × Option Nat)
deriving Repr, DecidableEq

/-- `TTLManager.get_ttl_for_domain`: the domain override if the domain is
mapped and carries one, otherwise the default TTL. -/
def getTtlForDomain (m : TTLConfig) (d : String) : Nat :=
  match m.domainMappings.lookup d with
  | some cfg => cfg.getD m.defaultTtl
  | none => m.defaultTtl

/-- `CacheEngine` state: configuration plus the table and the counters. -/
structure Engine where
  maxResponseSize : Nat
  compressionThreshold : Nat
  maxCacheEntries : Nat
  ttl : TTLConfig
  store : List Row
  stats : Stats
deriving Repr, DecidableEq

/-- Model of `zlib.compress`: the zlib magic header 0x78 0x9c, a length
field, then the payload.  Injective, and its output always begins with the
magic bytes — exactly the property `CacheEngine.get`'s read-side check
relies on. -/
def zlibCompress (bs : List Nat) : List Nat :=
  120 :: 156 :: bs.length :: bs

/-- Model of `zlib.decompress`: inverts `zlibCompress` and fails on
anything else (real zlib raises `zlib.error` on ill-formed streams). -/
def zlibDecompress (bs : List Nat) : Option (List Nat) :=
  match bs with
  | 120 :: 156 :: l :: rest => if rest.length = l then some rest else none
  | _ => none

/-- `SELECT ... FROM cache_entries WHERE cache_key = ?`. -/
def lookupRow (store : List Row) (k : String) : Option Row :=
  store.find? (fun r => r.key == k)

/-- `DELETE FROM cache_entries WHERE cache_key = ?` (CacheEngine.delete),
returning the surviving rows and the affected row count. -/
def deleteKey (store : List Row) (k : String) : List Row × Nat :=
  (store.filter (fun r => ¬ r.key = k), (store.filter (fun r => r.key = k)).length)

/-- The path normalization step of `_normalize_url` (engine.py lines
84-89): all trailing slashes are insignificant except on the root path. -/
def normalizePath (p : String) : String :=
  if p ≠ "/" then
    let q := Url.rstripSlash p
    if q = "" then "/" else q
  else p

/-- `CacheEngine._normalize_url` (engine.py lines 71-94). -/
def normalizeUrl (u : Url.ParsedUrl) : String :=
  let query := Url.urlencode (Url.sortPairs (Url.parseQsl u.query))
  let path := normalizePath u.path
  let n1 : Url.ParsedUrl :=
    { scheme := Bytes.lowerAscii u.scheme, netloc := Bytes.lowerAscii u.netloc, path := path,
      params := u.params, query := query, fragment := u.fragment }
  let n2 := if n1.path = "" then { n1 with path := "/" } else n1
  Url.urlunparse n2

/-- Is `needle` a contiguous substring of `hay` (Python `in` on strings)? -/
def listContains (needle : List Char) : List Char → Bool
  | [] => needle.isPrefixOf []
  | c :: rest => needle.isPrefixOf (c :: rest) || listContains needle rest

/-- The content-type test of `_normalize_request_body`:
`content_type and "application/json" in content_type`. -/
def isJsonContentType : Option String → Bool
  | some ct => ct != "" && listContains "application/json".data ct.data
  | none => false

/-- `CacheEngine._normalize_request_body` (engine.py lines 96-115): empty
body yields the empty string; a JSON content type re-serializes the parsed
body with sorted keys and no insignificant whitespace; any failure or
other content falls back to the hex SHA-256 of the raw bytes. -/
def normalizeRequestBody (body : List Nat) (contentType : Option String) : String :=
  if body = [] then ""
  else
    if isJsonContentType contentType then
      match Bytes.utf8Decode body with
      | some s =>
        match Json.jsonLoads s with
        | some v => Json.dumpsSorted v
        | none => Sha256.sha256hex body
      | none => Sha256.sha256hex body
    else Sha256.sha256hex body

/-- Truthiness of the `body` argument (`None` and `b""` are falsy). -/
def bodyTruthy : Option (List Nat) → Bool
  | some b => b ≠ []
  | none => false

/-- Python `":".join(components)`. -/
def joinColon : List String → String
  | [] => ""
  | [x] => x
  | x :: xs => x ++ ":" ++ joinColon xs

/-- `CacheEngine.generate_cache_key` (engine.py lines 117-142): join the
uppercased method and the normalized URL with ":", appending the
normalized body only for a POST with a non-empty body, and hash with
SHA-256. -/
def generateCacheKey (method : String) (url : Url.ParsedUrl)
    (body : Option (List Nat)) (contentType : Option String) : String :=
  let normalizedUrl := normalizeUrl url
  let keyComponents := [Bytes.upperAscii method, normalizedUrl]
  let keyComponents :=
    if Bytes.upperAscii method = "POST" ∧ bodyTruthy body then
      keyComponents ++ [normalizeRequestBody (body.getD []) contentType]
    else keyComponents
  Sha256.sha256hex (Bytes.strBytes (joinColon keyComponents))

/-- `CacheEngine.get` (engine.py lines 144-216): select the row; a missing
key counts a miss; an entry with `now > created_at + ttl_seconds` is
deleted and counts as expired; otherwise data carrying the zlib magic is
decompressed (failures ignored), the row's access count and last-accessed
time are bumped, a hit is counted, and the response is returned carrying
the incremented access count and the pre-update last-accessed value. -/
def get (e : Engine) (cacheKey : String) (now : Nat) : Option CachedResponse × Engine :=
  match lookupRow e.store cacheKey with
  | none => (none, { e with stats := { e.stats with misses := e.stats.misses + 1 } })
  | some row =>
    if now > row.createdAt + row.ttlSeconds then
      (none,
       { e with store := (deleteKey e.store cacheKey).1,
                stats := { e.stats with expired := e.stats.expired + 1 } })
    else
      let decompressed : List Nat × Stats :=
        if row.data.take 2 = [120, 156] then
          match zlibDecompress row.data with
          | some d => (d, { e.stats with decompressed := e.stats.decompressed + 1 })
          | none => (row.data, e.stats)
        else (row.data, e.stats)
      let store' := e.store.map (fun r =>
        if r.key = cacheKey then
          { r with accessCount := r.accessCount + 1, lastAccessed := now }
        else r)
      (some
        { data := decompressed.1, headers := row.headers, statusCode := row.statusCode,
          createdAt := some row.createdAt, ttlSeconds := some row.ttlSeconds,
          accessCount := row.accessCount + 1, lastAccessed := some row.lastAccessed },
       { e with store := store',
                stats := { decompressed.2 with hits := decompressed.2.hits + 1 } })

/-- Row ordering used by eviction: `ORDER BY last_accessed ASC`, ties kept
in table (rowid) order, which a stable sort over the rowid-ordered list
realizes. -/
def laLe (a b : Row) : Prop := a.lastAccessed ≤ b.lastAccessed

instance : DecidableRel laLe := fun a b => by
  unfold laLe; infer_instance

instance : IsTotal Row laLe :=
  ⟨fun a b => Nat.le_total a.lastAccessed b.lastAccessed⟩

instance : IsTrans Row laLe :=
  ⟨fun _ _ _ => Nat.le_trans⟩

def sortByLastAccessed (store : List Row) : List Row :=
  List.insertionSort laLe store

/-- One `while` pass of `_evict_if_needed` plus the recursive continuation
(fuelled; each pass deletes at least one row, so `store.length + 1` passes
always suffice).  Returns the surviving rows and the number of
`stats["evictions"]` increments. -/
def evictGo : Nat → Nat → List Row → List Row × Nat
  | 0, _, store => (store, 0)
  | fuel + 1, maxEntries, store =>
    let count := store.length
    if count ≤ maxEntries then (store, 0)
    else
      let toEvict := count - maxEntries
      let keys := ((sortByLastAccessed store).take toEvict).map (·.key)
      let store' := store.filter (fun r => ¬ r.key ∈ keys)
      let rec' := evictGo fuel maxEntries store'
      (rec'.1, toEvict + rec'.2)

/-- `CacheEngine._evict_if_needed` (engine.py lines 270-282). -/
def evict (maxEntries : Nat) (store : List Row) : List Row × Nat :=
  evictGo (store.length + 1) maxEntries store

/-- TTL resolution inside `CacheEngine.set` (engine.py lines 235-239): a
caller-supplied TTL wins; else a truthy domain key resolves through the
TTL manager; else the default TTL. -/
def resolveTtl (e : Engine) (respTtl : Option Nat) (domainKey : Option String) : Nat :=
  match respTtl with
  | some t => t
  | none =>
    match domainKey with
    | some d => if d ≠ "" then getTtlForDomain e.ttl d else e.ttl.defaultTtl
    | none => e.ttl.defaultTtl

/-- `CacheEngine.set` (engine.py lines 218-268): reject data larger than
`max_response_size` before compression; resolve a missing TTL; compress
data above the threshold; `REPLACE INTO` the row with fresh timestamps and
a zero access count; evict if needed; bump `sets` (and `compressed`). -/
def set (e : Engine) (cacheKey : String) (resp : CachedResponse)
    (domainKey : Option String) (now : Nat) : Bool × Engine :=
  if resp.data.length > e.maxResponseSize then (false, e)
  else
    let ttl := resolveTtl e resp.ttlSeconds domainKey
    let compressed := resp.data.length > e.compressionThreshold
    let stored := if compressed then zlibCompress resp.data else resp.data
    let row : Row :=
      { key := cacheKey, data := stored, headers := resp.headers,
        statusCode := resp.statusCode, createdAt := now, ttlSeconds := ttl,
        accessCount := 0, lastAccessed := now }
    let replaced := (e.store.filter (fun r => ¬ r.key = cacheKey)) ++ [row]
    let ev := evict e.maxCacheEntries replaced
    (true,
     { e with store := ev.1,
              stats :=
                { e.stats with
                    evictions := e.stats.evictions + ev.2,
                    sets := e.stats.sets + 1,
                    compressed := e.stats.compressed + (if compressed then 1 else 0) } })

/-- Case folding used by SQLite `LIKE` (ASCII-only case-insensitivity:
code points 65-90, the letters A-Z, map to their lowercase forms). -/
def likeFold (c : Char) : Char :=
  if 65 ≤ c.toNat && c.toNat ≤ 90 then Char.ofNat (c.toNat + 32) else c

/-- SQLite `LIKE` pattern matching: `%` matches any sequence, `_` any
single character, any other pattern character matches case-insensitively
(ASCII folding). -/
def likeMatch : List Char → List Char → Bool
  | [], [] => true
  | [], _ :: _ => false
  | p :: ps, ts =>
    if p = '%' then
      match ts with
      | [] => likeMatch ps []
      | t :: ts' => likeMatch ps (t :: ts') || likeMatch (p :: ps) ts'
    else
      match ts with
      | [] => false
      | t :: ts' =>
        if p = '_' then likeMatch ps ts'
        else likeFold p = likeFold t && likeMatch ps ts'
termination_by ps ts => (ts.length, ps.length)

/-- `CacheEngine.clear_cache` (engine.py lines 336-349): with no domain,
delete everything; with a domain, delete rows whose cache key matches
`LIKE '%domain%'`.  Returns the affected row count. -/
def clearCache (e : Engine) (domain : Option String) : Nat × Engine :=
  match domain with
  | none => (e.store.length, { e with store := [] })
  | some d =>
    let pat := '%' :: (d.data ++ ['%'])
    let kept := e.store.filter (fun r => ¬ likeMatch pat r.key.data)
    (e.store.length - kept.length, { e with store := kept })

end Cache

namespace Throttle

/-!
Embedding of `ThrottleManager` (throttling/manager.py).  `time.time()`
instants are modelled as `Nat` seconds; Python float subtraction
comparisons translate to truncated `Nat` subtraction, which agrees with
the float comparisons whenever the timestamps involved are not in the
future (and on the one out-of-order case, both keep the entry).
-/

/-- `ThrottleState`: per-domain throttling bookkeeping. -/
structure TState where
  violations : Nat
  delaySeconds : Nat
  lastViolation : Nat
  totalRequests : Nat
  requestTimestamps : List Nat
deriving Repr, DecidableEq

/-- A fresh `ThrottleState()`. -/
def TState.init : TState :=
  { violations := 0, delaySeconds := 1, lastViolation := 0,
    totalRequests := 0, requestTimestamps := [] }

/-- Throttling configuration: `default_requests_per_hour` (default 1000),
`progressive_max_delay` (default 300) and `domain_limits`. -/
structure TConfig where
  defaultLimit : Nat
  maxDelay : Nat
  domainLimits : List (String × Nat)
deriving Repr, DecidableEq

/-- `self.time_window = 3600`. -/
def timeWindow : Nat := 3600

/-- `_cleanup_old_requests`: pop leading timestamps older than the window. -/
def cleanup (now : Nat) (st : TState) : TState :=
  { st with requestTimestamps :=
      st.requestTimestamps.dropWhile (fun t0 => now - t0 > timeWindow) }

/-- `limit = self.domain_limits.get(domain, self.default_limit)`. -/
def limitFor (cfg : TConfig) (d : String) : Nat :=
  (cfg.domainLimits.lookup d).getD cfg.defaultLimit

/-- `_apply_progressive_throttling` (manager.py lines 77-83). -/
def applyProgressive (cfg : TConfig) (now : Nat) (st : TState) : TState :=
  { st with violations := st.violations + 1, lastViolation := now,
            delaySeconds :=
              min cfg.maxDelay (if st.delaySeconds > 1 then st.delaySeconds * 2 else 2) }

/-- `should_throttle` (manager.py lines 42-55): cleanup, then throttle with
back-off when the window count exceeds the limit, else throttle without
state change while inside the penalty window, else pass. -/
def shouldThrottle (cfg : TConfig) (d : String) (now : Nat) (st : TState) : Bool × TState :=
  let st := cleanup now st
  if st.requestTimestamps.length > limitFor cfg d then
    (true, applyProgressive cfg now st)
  else if st.delaySeconds > 1 ∧ now - st.lastViolation < st.delaySeconds then
    (true, st)
  else (false, st)

/-- `record_request` (manager.py lines 57-64). -/
def recordRequest (now : Nat) (st : TState) : TState :=
  cleanup now
    { st with requestTimestamps := st.requestTimestamps ++ [now],
              totalRequests := st.totalRequests + 1 }

/-- A call made to the throttle manager for one domain. -/
inductive TEvent where
  | record (t : Nat) : TEvent
  | should (t : Nat) : TEvent
deriving Repr, DecidableEq

/-- Run one event against a state, collecting `should_throttle` decisions. -/
def stepTrace (cfg : TConfig) (d : String) (acc : TState × List Bool)
    (ev : TEvent) : TState × List Bool :=
  match ev with
  | .record t => (recordRequest t acc.1, acc.2)
  | .should t =>
    let r := shouldThrottle cfg d t acc.1
    (r.2, acc.2 ++ [r.1])

/-- Run a sequence of throttle-manager calls for one domain from a fresh
state, returning the final state and the list of decisions. -/
def runTrace (cfg : TConfig) (d : String) (evs : List TEvent) : TState × List Bool :=
  evs.foldl (stepTrace cfg d) (TState.init, [])

end Throttle

namespace Security

/-!
Embedding of `SecurityManager.extract_secure_key` and its helpers
(security/manager.py lines 82-161).
-/

/-- Python `str.lstrip("/")`. -/
def lstripSlash (s : String) : String := ⟨s.data.dropWhile (· = '/')⟩

/-- Python `str.strip()` (ASCII whitespace). -/
def stripWs (s : String) : String :=
  ⟨((s.data.dropWhile (·.toNat ≤ 32)).reverse.dropWhile (·.toNat ≤ 32)).reverse⟩

/-- `_extract_from_path` (manager.py lines 112-130): a path `/{seg}/{rest}`
yields `seg` as the key, with the segment stripped, exactly when `seg` has
between 32 and 44 characters; only the length is checked. -/
def extractFromPath (requestPath : String) : Option String × String :=
  if requestPath = "" ∨ ¬ Url.startsSlash requestPath then (none, requestPath)
  else
    match Url.splitOnce '/' (lstripSlash requestPath).data with
    | none => (none, requestPath)
    | some (k, rest) =>
      if 32 ≤ k.length ∧ k.length ≤ 44 then (some ⟨k⟩, "/" ++ (⟨rest⟩ : String))
      else (none, requestPath)

/-- `_extract_from_query`: the `key` query parameter. -/
def extractFromQuery (queryParams : List (String × String)) : Option String :=
  match queryParams.lookup "key" with
  | some v => if v ≠ "" then some v else none
  | none => none

/-- `_extract_from_header`: `X-API-Buddy-Key`, else `Authorization: Bearer`. -/
def extractFromHeader (headers : List (String × String)) : Option String :=
  match headers.lookup "X-API-Buddy-Key" with
  | some k => if k ≠ "" then some k else headerBearer headers
  | none => headerBearer headers
where
  headerBearer (headers : List (String × String)) : Option String :=
    match headers.lookup "Authorization" with
    | some auth =>
      if auth ≠ "" ∧ "bearer ".data.isPrefixOf (Bytes.lowerAscii auth).data then
        some (stripWs ⟨auth.data.drop 7⟩)
      else none
    | none => none

/-- Continuation of `extract_secure_key` when the path yields no truthy
key: query parameter, then headers, the original path returned either way. -/
def extractAfterPath (requestPath : String) (headers : List (String × String))
    (queryParams : List (String × String)) : Option String × String :=
  match extractFromQuery queryParams with
  | some k => (some k, requestPath)
  | none =>
    match extractFromHeader headers with
    | some k => (some k, requestPath)
    | none => (none, requestPath)

/-- `extract_secure_key` (manager.py lines 82-110): path first (with the
sanitized path), then query, then header (both leaving the path alone). -/
def extractSecureKey (requestPath : String) (headers : List (String × String))
    (queryParams : List (String × String)) : Option String × String :=
  let fromPath := extractFromPath requestPath
  match fromPath.1 with
  | some k =>
    if k ≠ "" then (some k, fromPath.2)
    else extractAfterPath requestPath headers queryParams
  | none => extractAfterPath requestPath headers queryParams

end Security

namespace Pipeline

/-!
Embedding of the matched-domain portion of
`RequestProcessingMixin._handle_request` (core/handler.py lines 311-430):
the cache-first path for a request whose path matched a configured domain
mapping.  The upstream call (`_forward_request`, network I/O) is a
parameter; metrics writes (`store_upstream_metrics`, `record_event`) touch
only the metrics log and are outside the model.  The result records how
many times `record_request` and `should_throttle` ran. -/

/-- Outcome of handling a matched request. -/
structure Result where
  status : Nat
  headers : List (String × String)
  body : List Nat
  engine : Cache.Engine
  states : List (String × Throttle.TState)
  recordCalls : Nat
  shouldCalls : Nat
deriving Repr, DecidableEq

/-- `defaultdict(ThrottleState)` read. -/
def getTState (states : List (String × Throttle.TState)) (d : String) : Throttle.TState :=
  (states.lookup d).getD Throttle.TState.init

/-- Write a domain's throttle state back into the map. -/
def putTState (states : List (String × Throttle.TState)) (d : String)
    (st : Throttle.TState) : List (String × Throttle.TState) :=
  if (states.lookup d).isSome then
    states.map (fun p => if p.1 = d then (d, st) else p)
  else states ++ [(d, st)]

/-- The miss continuation (handler.py lines 357-430): record the request,
ask `should_throttle`; on throttle answer 429 with the rate-limit headers;
otherwise forward upstream, cache the response for GET/POST, and relay it. -/
def handleMiss (cfg : Throttle.TConfig)
    (upstream : String → Url.ParsedUrl → Option (List Nat) → List Nat × Nat × List (String × String))
    (method : String) (target : Url.ParsedUrl)
    (body : Option (List Nat)) (domain : String) (now : Nat)
    (engine : Cache.Engine) (states : List (String × Throttle.TState))
    (cacheKey : Option String) : Result :=
  let st := getTState states domain
  let st1 := Throttle.recordRequest now st
  let dec := Throttle.shouldThrottle cfg domain now st1
  let states' := putTState states domain dec.2
  if dec.1 then
    let delay := dec.2.delaySeconds
    let limit := Throttle.limitFor cfg domain
    let remaining := limit - dec.2.requestTimestamps.length
    let reset :=
      if dec.2.requestTimestamps ≠ [] then
        Throttle.timeWindow - (now - dec.2.requestTimestamps.headD 0)
      else 1
    { status := 429,
      headers := [("Retry-After", toString delay), ("X-RateLimit-Limit", toString limit),
                  ("X-RateLimit-Remaining", toString remaining),
                  ("X-RateLimit-Reset", toString reset)],
      body := Bytes.strBytes "Too Many Requests\n",
      engine := engine, states := states', recordCalls := 1, shouldCalls := 1 }
  else
    let fwd := upstream method target body
    match cacheKey with
    | some key =>
      let respObj : Cache.CachedResponse :=
        { data := fwd.1, headers := fwd.2.2, statusCode := fwd.2.1,
          createdAt := none, ttlSeconds := none, accessCount := 0, lastAccessed := none }
      let stored := Cache.set engine key respObj (some domain) now
      { status := fwd.2.1, headers := fwd.2.2, body := fwd.1,
        engine := stored.2, states := states', recordCalls := 1, shouldCalls := 1 }
    | none =>
      { status := fwd.2.1, headers := fwd.2.2, body := fwd.1,
        engine := engine, states := states', recordCalls := 1, shouldCalls := 1 }

/-- The matched-domain pipeline (handler.py lines 311-430): for GET/POST,
compute the cache key (reading the body only for POST) and look it up; a
hit is answered from the cache at once, with no throttle accounting; a
miss (and every other method) goes through throttling, forwarding, and,
for GET/POST, a cache write. -/
def handleMatched (cfg : Throttle.TConfig)
    (upstream : String → Url.ParsedUrl → Option (List Nat) → List Nat × Nat × List (String × String))
    (method : String) (target : Url.ParsedUrl) (contentType : Option String)
    (rawBody : Option (List Nat)) (domain : String) (now : Nat)
    (engine : Cache.Engine) (states : List (String × Throttle.TState)) : Result :=
  let body := if method = "POST" then rawBody else none
  if method = "GET" ∨ method = "POST" then
    let key := Cache.generateCacheKey method target body contentType
    let looked := Cache.get engine key now
    match looked.1 with
    | some c =>
      { status := c.statusCode, headers := c.headers, body := c.data,
        engine := looked.2, states := states, recordCalls := 0, shouldCalls := 0 }
    | none =>
      handleMiss cfg upstream method target body domain now looked.2 states (some key)
  else
    handleMiss cfg upstream method target body domain now engine states none

end Pipeline


theorem sha256_abc_sanity :
    Sha256.sha256hex (Bytes.strBytes "abc") =
      "ba7816bf8f01cfea414140de5dae2223b00361a396177a9cb410ff61f20015ad" := by
  decide

/-!
Shared helper lemmas.
-/

theorem lookupRow_filter_ne_self (store : List Cache.Row) (k : String) :
    Cache.lookupRow (store.filter (fun r => ¬ r.key = k)) k = none := by
  simp only [Cache.lookupRow, List.find?_eq_none, List.mem_filter, decide_eq_true_eq,
    beq_iff_eq]
  intro a ha
  exact ha.2

/-!
Claim C2.  The code (engine.py line 190) expires an entry only when
`now > created_at + ttl_seconds`, strictly; at the boundary instant
`now = created_at + ttl_seconds` the entry is still served.  The claim
(`now ≥ created_at + t` is expired) therefore fails at the boundary and is
amended to the strict inequality.
-/

/-- An engine holding one entry created at time 0 with TTL 10, for the C2
boundary counterexample. -/
def c2Engine : Cache.Engine :=
  { maxResponseSize := 10485760, compressionThreshold := 1024, maxCacheEntries := 1000,
    ttl := { defaultTtl := 86400, domainMappings := [] },
    store := [{ key := "k", data := [1, 2], headers := [("Content-Type", "text/plain")],
                statusCode := 200, createdAt := 0, ttlSeconds := 10,
                accessCount := 0, lastAccessed := 0 }],
    stats := { hits := 0, misses := 0, evictions := 0, sets := 0, expired := 0,
               compressed := 0, decompressed := 0 } }

/-- C2 counterexample: at `now = created_at + ttl_seconds` (here 10 = 0 + 10)
the claim demands an expired miss with `stats.expired` incremented, but
`CacheEngine.get` returns the cached response and leaves `stats.expired`
untouched. -/
theorem c2_boundary_counterexample :
    (Cache.get c2Engine "k" 10).1.isSome = true ∧
      (Cache.get c2Engine "k" 10).2.stats.expired = 0 ∧
      Cache.lookupRow (Cache.get c2Engine "k" 10).2.store "k" ≠ none := by
  decide

/-- C2 (amended): for every cache key `k` and stored entry with TTL `t`, a
`get(k)` at any time `now` STRICTLY after `created_at + t` treats the entry
as expired: it deletes the entry, increments `stats.expired` by exactly 1,
and returns a miss, never the cached response. -/
theorem get_after_expiry_deletes_counts_and_misses :
    ∀ (e : Cache.Engine) (k : String) (now : Nat) (row : Cache.Row),
      Cache.lookupRow e.store k = some row →
      now > row.createdAt + row.ttlSeconds →
      (Cache.get e k now).1 = none ∧
        (Cache.get e k now).2.stats.expired = e.stats.expired + 1 ∧
        Cache.lookupRow (Cache.get e k now).2.store k = none := by
  intro e k now row hl hexp
  simp only [Cache.get, hl, Cache.deleteKey, if_pos hexp]
  exact ⟨trivial, trivial, lookupRow_filter_ne_self e.store k⟩

/-- C2 witness: a concrete expired read (entry created at 0 with TTL 10,
read at 11) misses, counts one expiry, and deletes the row. -/
theorem get_after_expiry_witness :
    (Cache.get c2Engine "k" 11).1 = none ∧
      (Cache.get c2Engine "k" 11).2.stats.expired = 0 + 1 ∧
      Cache.lookupRow (Cache.get c2Engine "k" 11).2.store "k" = none :=
  get_after_expiry_deletes_counts_and_misses c2Engine "k" 11
    { key := "k", data := [1, 2], headers := [("Content-Type", "text/plain")],
      statusCode := 200, createdAt := 0, ttlSeconds := 10,
      accessCount := 0, lastAccessed := 0 }
    (by decide) (by decide)

/-!
Claim C8: `CacheEngine.set` measures `len(response.data)` against
`max_response_size` before compression; oversized data is rejected with no
state change at all, and data of exactly the limit is accepted.
-/

/-- C8: a response whose data strictly exceeds `max_response_size` makes
`set` return the rejection result with the engine (store and statistics,
in particular `stats.sets`) completely unchanged; a response of exactly
`max_response_size` bytes is accepted: `set` returns `True` and increments
`stats.sets`. -/
theorem set_size_limit_boundary :
    ∀ (e : Cache.Engine) (k : String) (r : Cache.CachedResponse)
      (dk : Option String) (now : Nat),
      (r.data.length > e.maxResponseSize → Cache.set e k r dk now = (false, e)) ∧
        (r.data.length = e.maxResponseSize →
          (Cache.set e k r dk now).1 = true ∧
            (Cache.set e k r dk now).2.stats.sets = e.stats.sets + 1) := by
  intro e k r dk now
  constructor
  · intro h
    simp only [Cache.set, if_pos h]
  · intro h
    have hno : ¬ r.data.length > e.maxResponseSize := by omega
    simp only [Cache.set, if_neg hno]
    exact ⟨trivial, trivial⟩

/-- An empty engine whose `max_response_size` is 3, for the C8 witness. -/
def c8Engine : Cache.Engine :=
  { maxResponseSize := 3, compressionThreshold := 1024, maxCacheEntries := 1000,
    ttl := { defaultTtl := 86400, domainMappings := [] },
    store := [],
    stats := { hits := 0, misses := 0, evictions := 0, sets := 0, expired := 0,
               compressed := 0, decompressed := 0 } }

/-- C8 witness: with `max_response_size = 3`, a 4-byte body is rejected
without touching the engine and a 3-byte body is stored with `sets`
incremented. -/
theorem set_size_limit_boundary_witness :
    Cache.set c8Engine "k"
        { data := [1, 2, 3, 4], headers := [], statusCode := 200, createdAt := none,
          ttlSeconds := none, accessCount := 0, lastAccessed := none } none 0 =
      (false, c8Engine) ∧
      (Cache.set c8Engine "k"
        { data := [1, 2, 3], headers := [], statusCode := 200, createdAt := none,
          ttlSeconds := none, accessCount := 0, lastAccessed := none } none 0).1 = true ∧
      (Cache.set c8Engine "k"
        { data := [1, 2, 3], headers := [], statusCode := 200, createdAt := none,
          ttlSeconds := none, accessCount := 0, lastAccessed := none } none 0).2.stats.sets =
        c8Engine.stats.sets + 1 := by
  refine ⟨(set_size_limit_boundary c8Engine "k" _ none 0).1 (by decide), ?_⟩
  exact (set_size_limit_boundary c8Engine "k" _ none 0).2 (by decide)

/-!
Claim C3.  The claim describes the cache key as the digest of THREE
components joined with ":", the third being the empty string for an
empty or absent body and the body hash for non-POST bodies.  The code
(engine.py lines 137-141) appends a third component only for POST with a
truthy body: an empty or absent body, or any non-POST request, hashes a
TWO-component string with no trailing ":", and a non-POST body is ignored
entirely.  The two digests differ, so the claim is corrected to the
conditional-append form.
-/

/-- The normalized body exactly as claim C3 words it: sorted-keys
whitespace-free JSON re-serialization for POST with JSON content type, the
hex SHA-256 of the raw bytes for other non-empty bodies, the empty string
for an empty or absent body. -/
def claimC3NormalizedBody (method : String) (body : Option (List Nat))
    (contentType : Option String) : String :=
  match body with
  | none => ""
  | some b =>
    if b = [] then ""
    else
      let isJson : Bool :=
        match contentType with
        | some ct => ct != "" && Cache.listContains "application/json".data ct.data
        | none => false
      if Bytes.upperAscii method = "POST" ∧ isJson then
        match Bytes.utf8Decode b with
        | some s =>
          match Json.jsonLoads s with
          | some v => Json.dumpsSorted v
          | none => Sha256.sha256hex b
        | none => Sha256.sha256hex b
      else Sha256.sha256hex b

/-- The cache key exactly as claim C3 words it: always three components
joined with ":". -/
def claimC3CacheKey (method : String) (url : Url.ParsedUrl)
    (body : Option (List Nat)) (contentType : Option String) : String :=
  Sha256.sha256hex (Bytes.strBytes (Cache.joinColon
    [Bytes.upperAscii method, Cache.normalizeUrl url, claimC3NormalizedBody method body contentType]))

/-- A minimal GET URL `http://a/` for the C3 counterexample. -/
def c3Url : Url.ParsedUrl :=
  { scheme := "http", netloc := "a", path := "/", params := "", query := "", fragment := "" }

/-- C3 counterexample: for `GET http://a/` with no body, the code hashes
`"GET:http://a/"` while the claim's formula hashes `"GET:http://a/:"`
(empty normalized body still joined), and the two digests differ. -/
theorem c3_key_formula_counterexample :
    Cache.generateCacheKey "GET" c3Url none none ≠ claimC3CacheKey "GET" c3Url none none := by
  decide

/-- C3 (amended): the cache key is the SHA-256 hex digest of the
uppercased method and the normalized URL joined with ":", with the
normalized body appended as a third ":"-joined component ONLY for POST
requests with a non-empty body (where it is the sorted-keys
whitespace-free JSON re-serialization under a JSON content type and the
hex SHA-256 of the raw bytes otherwise); empty or absent bodies and
non-POST bodies contribute nothing. -/
theorem generate_cache_key_formula :
    ∀ (method : String) (url : Url.ParsedUrl) (body : Option (List Nat))
      (contentType : Option String),
      (¬ (Bytes.upperAscii method = "POST" ∧ Cache.bodyTruthy body) →
        Cache.generateCacheKey method url body contentType =
          Sha256.sha256hex (Bytes.strBytes (Bytes.upperAscii method ++ ":" ++ Cache.normalizeUrl url))) ∧
      (∀ b, body = some b → Bytes.upperAscii method = "POST" → b ≠ [] →
        Cache.generateCacheKey method url body contentType =
          Sha256.sha256hex (Bytes.strBytes
            (Bytes.upperAscii method ++ ":" ++ Cache.normalizeUrl url ++ ":" ++
              Cache.normalizeRequestBody b contentType))) := by
  intro method url body contentType
  constructor
  · intro h
    simp only [Cache.generateCacheKey, if_neg h, Cache.joinColon]
  · intro b hb hpost hne
    subst hb
    have htr : Cache.bodyTruthy (some b) = true := by
      simpa [Cache.bodyTruthy] using hne
    simp only [Cache.generateCacheKey, Option.getD_some]
    rw [if_pos (And.intro hpost htr)]
    simp [Cache.joinColon, String.append_assoc]

/-- C3 witness: both branches of the amended key formula at concrete
inputs (a body-less GET, and a POST with body bytes `[65]`). -/
theorem generate_cache_key_formula_witness :
    Cache.generateCacheKey "GET" c3Url none none =
      Sha256.sha256hex (Bytes.strBytes (Bytes.upperAscii "GET" ++ ":" ++ Cache.normalizeUrl c3Url)) ∧
      Cache.generateCacheKey "POST" c3Url (some [65]) none =
        Sha256.sha256hex (Bytes.strBytes
          (Bytes.upperAscii "POST" ++ ":" ++ Cache.normalizeUrl c3Url ++ ":" ++
            Cache.normalizeRequestBody [65] none)) := by
  constructor
  · exact (generate_cache_key_formula "GET" c3Url none none).1 (by decide)
  · exact (generate_cache_key_formula "POST" c3Url (some [65]) none).2 [65] rfl (by decide)
      (by decide)

/-!
Claim C7.  `should_throttle` returns true on two distinct branches: the
rate-limit branch (window count above the limit), which applies
progressive back-off, and the penalty-window branch (`delay_seconds > 1`
and `now - last_violation < delay_seconds`), which leaves the state
untouched.  Consecutive throttled DECISIONS can therefore include
penalty-window hits that do not double the delay, refuting the claim's
`delay_seconds = min(max_delay, 2^k)` for k consecutive throttled
decisions; it holds with k counted as rate-limit VIOLATIONS.
-/

/-- The back-off invariant: a fresh state has delay 1 until the first
violation, and after v ≥ 1 violations the delay is `min max_delay (2^v)`. -/
def throttleInv (cfg : Throttle.TConfig) (st : Throttle.TState) : Prop :=
  (st.violations = 0 → st.delaySeconds = 1) ∧
    (1 ≤ st.violations → st.delaySeconds = min cfg.maxDelay (2 ^ st.violations))

theorem throttleInv_init (cfg : Throttle.TConfig) : throttleInv cfg Throttle.TState.init :=
  ⟨fun _ => rfl, fun h => absurd h (by simp [Throttle.TState.init])⟩

theorem throttleInv_cleanup (cfg : Throttle.TConfig) (now : Nat) (st : Throttle.TState)
    (h : throttleInv cfg st) : throttleInv cfg (Throttle.cleanup now st) := h

theorem throttleInv_record (cfg : Throttle.TConfig) (now : Nat) (st : Throttle.TState)
    (h : throttleInv cfg st) : throttleInv cfg (Throttle.recordRequest now st) := h

theorem throttleInv_apply (cfg : Throttle.TConfig) (now : Nat) (st : Throttle.TState)
    (h : throttleInv cfg st) : throttleInv cfg (Throttle.applyProgressive cfg now st) := by
  obtain ⟨h0, h1⟩ := h
  unfold throttleInv Throttle.applyProgressive
  refine ⟨fun hv => ?_, fun _ => ?_⟩
  · simp only at hv
    omega
  simp only
  rcases Nat.eq_zero_or_pos st.violations with hz | hpos
  · have hd : st.delaySeconds = 1 := h0 hz
    simp [hz, hd]
  · have hd : st.delaySeconds = min cfg.maxDelay (2 ^ st.violations) := h1 hpos
    have hp2 : 2 ≤ 2 ^ st.violations := by
      calc 2 = 2 ^ 1 := by norm_num
      _ ≤ 2 ^ st.violations := Nat.pow_le_pow_right (by norm_num) hpos
    have hsucc : 2 ^ (st.violations + 1) = 2 ^ st.violations * 2 := Nat.pow_succ 2 st.violations
    by_cases hgt : st.delaySeconds > 1 <;> simp only [hgt, if_true, if_false] <;> omega

theorem throttleInv_should (cfg : Throttle.TConfig) (d : String) (now : Nat)
    (st : Throttle.TState) (h : throttleInv cfg st) :
    throttleInv cfg (Throttle.shouldThrottle cfg d now st).2 := by
  unfold Throttle.shouldThrottle
  have hc := throttleInv_cleanup cfg now st h
  by_cases h1 : (Throttle.cleanup now st).requestTimestamps.length > Throttle.limitFor cfg d
  · simpa [h1] using throttleInv_apply cfg now _ hc
  · by_cases h2 : (Throttle.cleanup now st).delaySeconds > 1 ∧
        now - (Throttle.cleanup now st).lastViolation < (Throttle.cleanup now st).delaySeconds
    · simpa [h1, h2] using hc
    · simpa [h1, h2] using hc

theorem throttleInv_trace (cfg : Throttle.TConfig) (d : String) (evs : List Throttle.TEvent) :
    ∀ acc : Throttle.TState × List Bool, throttleInv cfg acc.1 →
      throttleInv cfg (evs.foldl (Throttle.stepTrace cfg d) acc).1 := by
  induction evs with
  | nil => intro acc h; exact h
  | cons ev rest ih =>
    intro acc h
    apply ih
    cases ev with
    | record t => exact throttleInv_record cfg t acc.1 h
    | should t => exact throttleInv_should cfg d t acc.1 h

/-- C7 (amended): each rate-limit violation increments `violations`, sets
`last_violation` to the current time, and sets `delay_seconds` to
`min(progressive_max_delay, 2 if delay_seconds was 1 else delay_seconds*2)`,
with no automatic decay; consequently, after any sequence of
`record_request`/`should_throttle` calls from a fresh state in which k ≥ 1
rate-limit violations occurred (throttled decisions taken because the
window count exceeded the limit), `delay_seconds = min(progressive_max_delay, 2^k)`.
Throttled decisions served from the penalty window leave `delay_seconds`
unchanged, so k counts violations, not all throttled decisions. -/
theorem throttle_backoff_formula :
    ∀ (cfg : Throttle.TConfig) (d : String) (now : Nat) (st : Throttle.TState)
      (evs : List Throttle.TEvent),
      (1 ≤ st.delaySeconds →
        Throttle.applyProgressive cfg now st =
          { st with violations := st.violations + 1, lastViolation := now,
                    delaySeconds :=
                      min cfg.maxDelay
                        (if st.delaySeconds = 1 then 2 else st.delaySeconds * 2) }) ∧
      ((Throttle.runTrace cfg d evs).1.violations = 0 →
        (Throttle.runTrace cfg d evs).1.delaySeconds = 1) ∧
      (1 ≤ (Throttle.runTrace cfg d evs).1.violations →
        (Throttle.runTrace cfg d evs).1.delaySeconds =
          min cfg.maxDelay (2 ^ (Throttle.runTrace cfg d evs).1.violations)) := by
  intro cfg d now st evs
  refine ⟨?_, ?_, ?_⟩
  · intro hge
    unfold Throttle.applyProgressive
    rcases Nat.lt_or_ge 1 st.delaySeconds with hgt | hle
    · have hne : ¬ st.delaySeconds = 1 := by omega
      simp [hgt, hne]
    · have heq : st.delaySeconds = 1 := by omega
      simp [heq]
  · exact (throttleInv_trace cfg d evs (Throttle.TState.init, []) (throttleInv_init cfg)).1
  · exact (throttleInv_trace cfg d evs (Throttle.TState.init, []) (throttleInv_init cfg)).2

/-- The C7 trace: one recorded request against a limit of zero, thirteen
rapid `should_throttle` calls (all violations), then one more
`should_throttle` an hour later, answered from the penalty window. -/
def c7Trace : List Throttle.TEvent :=
  [.record 0, .should 1, .should 2, .should 3, .should 4, .should 5, .should 6,
   .should 7, .should 8, .should 9, .should 10, .should 11, .should 12, .should 13,
   .should 3700]

/-- C7 counterexample: with `progressive_max_delay = 10000` and a domain
limit of 0, the trace yields 14 consecutive throttled decisions in a row,
yet `delay_seconds` ends at 8192 = 2^13 (the last decision came from the
penalty window and did not double it), not `min(10000, 2^14)`. -/
theorem c7_consecutive_decisions_counterexample :
    (Throttle.runTrace ⟨0, 10000, []⟩ "m" c7Trace).2 = List.replicate 14 true ∧
      (Throttle.runTrace ⟨0, 10000, []⟩ "m" c7Trace).1.delaySeconds = 8192 ∧
      (Throttle.runTrace ⟨0, 10000, []⟩ "m" c7Trace).1.delaySeconds ≠
        min 10000 (2 ^ 14) := by
  decide

/-- C7 witness: the per-violation update at a concrete state with delay 4,
and the closed-form back-off after the 13 violations of the C7 trace. -/
theorem throttle_backoff_formula_witness :
    Throttle.applyProgressive ⟨0, 10000, []⟩ 5
        ⟨3, 4, 2, 7, []⟩ =
      { violations := 4, delaySeconds := min 10000 (if 4 = 1 then 2 else 4 * 2),
        lastViolation := 5, totalRequests := 7, requestTimestamps := [] } ∧
      (Throttle.runTrace ⟨0, 10000, []⟩ "m" c7Trace).1.delaySeconds =
        min 10000 (2 ^ (Throttle.runTrace ⟨0, 10000, []⟩ "m" c7Trace).1.violations) := by
  constructor
  · exact (throttle_backoff_formula ⟨0, 10000, []⟩ "m" 5 ⟨3, 4, 2, 7, []⟩ []).1 (by decide)
  · exact (throttle_backoff_formula ⟨0, 10000, []⟩ "m" 0 Throttle.TState.init c7Trace).2.2
      (by decide)

/-!
Claim C9.  `_extract_from_path` checks only `32 <= len(key_candidate) <= 44`
(manager.py lines 127-129); the URL-safe base64 alphabet is never
consulted, so a 32-character first segment of exclamation marks is
extracted as the secret, refuting the claim's "exactly when"; the claim is
amended to a pure length test.
-/

/-- The URL-safe base64 alphabet, as claim C9 refers to it. -/
def isBase64UrlChar (c : Char) : Bool :=
  ('A' ≤ c && c ≤ 'Z') || ('a' ≤ c && c ≤ 'z') || ('0' ≤ c && c ≤ '9') ||
    c = '-' || c = '_'

theorem strData_append (s t : String) : (s ++ t).data = s.data ++ t.data := by
  cases s; cases t; rfl

theorem strMk_data (s : String) : (⟨s.data⟩ : String) = s := rfl

theorem dropWhileSlash_no_slash (l x : List Char) (hn : ¬ '/' ∈ l) (hne : l ≠ []) :
    List.dropWhile (fun c => c = '/') (l ++ x) = l ++ x := by
  cases l with
  | nil => exact absurd rfl hne
  | cons c cs =>
    have hc : ¬ c = '/' := fun h => hn (by simp [h])
    simp [List.dropWhile_cons, hc]

theorem splitOnce_no_sep_append (l r : List Char) (hn : ¬ '/' ∈ l) :
    Url.splitOnce '/' (l ++ '/' :: r) = some (l, r) := by
  induction l with
  | nil => simp [Url.splitOnce]
  | cons c cs ih =>
    have hc : ¬ c = '/' := fun h => hn (by simp [h])
    have ih' := ih (fun h => hn (by simp [h]))
    simp [Url.splitOnce, hc, ih']

/-- C9 counterexample: a first path segment of 32 exclamation marks —
characters outside the URL-safe base64 alphabet — is nevertheless
extracted as the secret and stripped from the path. -/
theorem c9_alphabet_counterexample :
    (Security.extractSecureKey "/!!!!!!!!!!!!!!!!!!!!!!!!!!!!!!!!/x" [] []).1 =
        some "!!!!!!!!!!!!!!!!!!!!!!!!!!!!!!!!" ∧
      (Security.extractSecureKey "/!!!!!!!!!!!!!!!!!!!!!!!!!!!!!!!!/x" [] []).2 = "/x" ∧
      ("!!!!!!!!!!!!!!!!!!!!!!!!!!!!!!!!".data.all isBase64UrlChar) = false ∧
      "!!!!!!!!!!!!!!!!!!!!!!!!!!!!!!!!".length = 32 := by
  decide

/-- C9 (amended): `extract_secure_key` treats the first path segment as
the secret, returning it with the segment stripped from the path, exactly
when the segment has between 32 and 44 characters; the characters
themselves are never inspected, so segments outside the URL-safe base64
alphabet are extracted all the same. -/
theorem extract_secure_key_checks_length_only :
    ∀ (seg rest : String) (headers queryParams : List (String × String)),
      ¬ '/' ∈ seg.data → seg ≠ "" →
      (Security.extractFromPath ("/" ++ seg ++ "/" ++ rest) =
        if 32 ≤ seg.length ∧ seg.length ≤ 44 then (some seg, "/" ++ rest)
        else (none, "/" ++ seg ++ "/" ++ rest)) ∧
      (32 ≤ seg.length → seg.length ≤ 44 →
        Security.extractSecureKey ("/" ++ seg ++ "/" ++ rest) headers queryParams =
          (some seg, "/" ++ rest)) := by
  intro seg rest headers queryParams hn hne
  have hdata : ("/" ++ seg ++ "/" ++ rest).data = '/' :: (seg.data ++ '/' :: rest.data) := by
    simp [strData_append]
  have hsegne : seg.data ≠ [] := by
    intro h
    exact hne (by rw [← strMk_data seg, h])
  have hpne : ("/" ++ seg ++ "/" ++ rest) ≠ "" := by
    intro h
    rw [h] at hdata
    exact absurd hdata (by simp [show ("" : String).data = [] from rfl])
  have hstart : Url.startsSlash ("/" ++ seg ++ "/" ++ rest) = true := by
    rw [← strMk_data ("/" ++ seg ++ "/" ++ rest), congrArg String.mk hdata]
    rfl
  have hlstrip : (Security.lstripSlash ("/" ++ seg ++ "/" ++ rest)).data =
      seg.data ++ '/' :: rest.data := by
    simp only [Security.lstripSlash, hdata, List.dropWhile_cons]
    simp only [decide_True, if_true]
    exact dropWhileSlash_no_slash seg.data ('/' :: rest.data) hn hsegne
  have hmain : Security.extractFromPath ("/" ++ seg ++ "/" ++ rest) =
      if 32 ≤ seg.length ∧ seg.length ≤ 44 then (some seg, "/" ++ rest)
      else (none, "/" ++ seg ++ "/" ++ rest) := by
    unfold Security.extractFromPath
    rw [if_neg (by simp [hpne, hstart])]
    rw [hlstrip, splitOnce_no_sep_append seg.data rest.data hn]
    simp only [strMk_data]
    rfl
  refine ⟨hmain, fun h32 h44 => ?_⟩
  unfold Security.extractSecureKey
  rw [hmain, if_pos ⟨h32, h44⟩]
  simp only
  rw [if_pos hne]

/-- C9 witness: a 32-character segment of hyphens is extracted and
stripped; the hypotheses of the amended theorem hold for it. -/
theorem extract_secure_key_checks_length_only_witness :
    Security.extractSecureKey ("/" ++ "--------------------------------" ++ "/" ++ "x") [] [] =
      (some "--------------------------------", "/" ++ "x") :=
  (extract_secure_key_checks_length_only "--------------------------------" "x" [] []
    (by decide) (by decide)).2 (by decide) (by decide)

/-!
Claim C10.  `clear_cache(domain)` issues
`DELETE FROM cache_entries WHERE cache_key LIKE '%domain%'`; cache keys
are SHA-256 hex digests (64 lowercase hex characters), so a domain string
containing any character that is neither a hex digit nor a LIKE wildcard
can never match, and nothing is deleted.
-/

/-- Lowercase hexadecimal characters (the alphabet of `hexdigest()`). -/
def isLowerHexChar (c : Char) : Bool :=
  (48 ≤ c.toNat && c.toNat ≤ 57) || (97 ≤ c.toNat && c.toNat ≤ 102)

/-- Hexadecimal digits of either case. -/
def isHexDigitChar (c : Char) : Bool :=
  (48 ≤ c.toNat && c.toNat ≤ 57) || (97 ≤ c.toNat && c.toNat ≤ 102) ||
    (65 ≤ c.toNat && c.toNat ≤ 70)

theorem charOfNat_toNat (n : Nat) (h : n < 55296) : (Char.ofNat n).toNat = n := by
  unfold Char.ofNat
  rw [dif_pos (Or.inl h)]
  rfl

theorem hexChar_isLowerHex (n : Nat) : isLowerHexChar (Sha256.hexChar (n % 16)) = true := by
  have h : n % 16 < 16 := Nat.mod_lt _ (by norm_num)
  unfold Sha256.hexChar isLowerHexChar
  by_cases h10 : n % 16 < 10
  · rw [if_pos h10, charOfNat_toNat _ (by omega)]
    simp only [Bool.or_eq_true, Bool.and_eq_true, decide_eq_true_eq]
    omega
  · rw [if_neg h10, charOfNat_toNat _ (by omega)]
    simp only [Bool.or_eq_true, Bool.and_eq_true, decide_eq_true_eq]
    omega

/-- Every SHA-256 hex digest is 64 lowercase hexadecimal characters. -/
theorem sha256hex_hex_structure (msg : List Nat) :
    (Sha256.sha256hex msg).length = 64 ∧
      (Sha256.sha256hex msg).data.all isLowerHexChar = true := by
  constructor
  · simp [Sha256.sha256hex, Sha256.digestWords, Sha256.wordHex, String.length]
  · simp [Sha256.sha256hex, Sha256.digestWords, Sha256.wordHex, hexChar_isLowerHex]

/-- A `LIKE` match forces every non-wildcard pattern character to fold
onto some character of the text. -/
theorem likeMatch_literal_mem :
    ∀ (ts ps : List Char), Cache.likeMatch ps ts = true →
      ∀ c ∈ ps, ¬ c = '%' → ¬ c = '_' →
        ∃ t ∈ ts, Cache.likeFold c = Cache.likeFold t := by
  intro ts
  induction ts with
  | nil =>
    intro ps
    induction ps with
    | nil => intro _ c hc; exact absurd hc (List.not_mem_nil c)
    | cons p ps' ih =>
      intro h c hc hcp hcu
      by_cases hp : p = '%'
      · subst hp
        have heq : Cache.likeMatch ('%' :: ps') [] = Cache.likeMatch ps' [] := by
          simp [Cache.likeMatch]
        rw [heq] at h
        rcases List.mem_cons.mp hc with rfl | hc'
        · exact absurd rfl hcp
        · exact ih h c hc' hcp hcu
      · have heq : Cache.likeMatch (p :: ps') [] = false := by
          simp [Cache.likeMatch, hp]
        rw [heq] at h
        exact absurd h (by simp)
  | cons t ts' iht =>
    intro ps
    induction ps with
    | nil =>
      intro h
      have heq : Cache.likeMatch [] (t :: ts') = false := by
        simp [Cache.likeMatch]
      rw [heq] at h
      exact absurd h (by simp)
    | cons p ps' ihp =>
      intro h c hc hcp hcu
      by_cases hp : p = '%'
      · subst hp
        have heq : Cache.likeMatch ('%' :: ps') (t :: ts') =
            (Cache.likeMatch ps' (t :: ts') || Cache.likeMatch ('%' :: ps') ts') := by
          simp [Cache.likeMatch]
        rw [heq, Bool.or_eq_true] at h
        rcases h with h1 | h2
        · rcases List.mem_cons.mp hc with rfl | hc'
          · exact absurd rfl hcp
          · exact ihp h1 c hc' hcp hcu
        · obtain ⟨t', ht', he⟩ := iht ('%' :: ps') h2 c hc hcp hcu
          exact ⟨t', List.mem_cons_of_mem t ht', he⟩
      · by_cases hu : p = '_'
        · subst hu
          have heq : Cache.likeMatch ('_' :: ps') (t :: ts') = Cache.likeMatch ps' ts' := by
            simp [Cache.likeMatch]
          rw [heq] at h
          rcases List.mem_cons.mp hc with rfl | hc'
          · exact absurd rfl hcu
          · obtain ⟨t', ht', he⟩ := iht ps' h c hc' hcp hcu
            exact ⟨t', List.mem_cons_of_mem t ht', he⟩
        · have heq : Cache.likeMatch (p :: ps') (t :: ts') =
              (decide (Cache.likeFold p = Cache.likeFold t) && Cache.likeMatch ps' ts') := by
            simp [Cache.likeMatch, hp, hu]
          rw [heq, Bool.and_eq_true] at h
          obtain ⟨he, hm⟩ := h
          rcases List.mem_cons.mp hc with rfl | hc'
          · exact ⟨t, List.mem_cons_self t ts', of_decide_eq_true he⟩
          · obtain ⟨t', ht', he'⟩ := iht ps' hm c hc' hcp hcu
            exact ⟨t', List.mem_cons_of_mem t ht', he'⟩

/-- Folding fixes lowercase hex characters. -/
theorem likeFold_lower_hex (t : Char) (h : isLowerHexChar t = true) :
    Cache.likeFold t = t := by
  unfold Cache.likeFold
  unfold isLowerHexChar at h
  rw [if_neg]
  intro hup
  simp only [Bool.and_eq_true, Bool.or_eq_true, decide_eq_true_eq] at h hup
  omega

/-- A character whose fold is lowercase hex is itself a hex digit. -/
theorem isHexDigit_of_fold_lower (c : Char) (h : isLowerHexChar (Cache.likeFold c) = true) :
    isHexDigitChar c = true := by
  unfold Cache.likeFold at h
  by_cases hup : (65 ≤ c.toNat && c.toNat ≤ 90) = true
  · rw [if_pos hup] at h
    simp only [Bool.and_eq_true, decide_eq_true_eq] at hup
    unfold isLowerHexChar at h
    rw [charOfNat_toNat (c.toNat + 32) (by omega)] at h
    unfold isHexDigitChar
    simp only [Bool.or_eq_true, Bool.and_eq_true, decide_eq_true_eq] at h ⊢
    omega
  · rw [if_neg hup] at h
    unfold isLowerHexChar at h
    unfold isHexDigitChar
    simp only [Bool.or_eq_true, Bool.and_eq_true, decide_eq_true_eq] at h ⊢
    omega

/-- C10: every cache key `generate_cache_key` produces is a 64-character
lowercase hexadecimal SHA-256 digest, and `clear_cache(domain)` — which
deletes exactly the rows whose key matches `LIKE '%domain%'` — deletes
nothing and returns 0 whenever the domain contains a character that is
neither a hexadecimal digit nor an SQL LIKE wildcard. -/
theorem clear_cache_unmatchable_domain :
    (∀ (method : String) (url : Url.ParsedUrl) (body : Option (List Nat))
       (contentType : Option String),
       (Cache.generateCacheKey method url body contentType).length = 64 ∧
         (Cache.generateCacheKey method url body contentType).data.all isLowerHexChar = true) ∧
      (∀ (e : Cache.Engine) (d : String),
        (∀ r ∈ e.store, r.key.data.all isLowerHexChar = true) →
        (∃ c ∈ d.data, isHexDigitChar c = false ∧ ¬ c = '%' ∧ ¬ c = '_') →
        Cache.clearCache e (some d) = (0, e)) := by
  constructor
  · intro m u b ct
    exact sha256hex_hex_structure _
  · intro e d hkeys hbad
    obtain ⟨c, hcd, hchex, hcp, hcu⟩ := hbad
    have hnomatch : ∀ r ∈ e.store,
        ¬ Cache.likeMatch ('%' :: (d.data ++ ['%'])) r.key.data = true := by
      intro r hr hmatch
      have hc_pat : c ∈ '%' :: (d.data ++ ['%']) :=
        List.mem_cons_of_mem _ (List.mem_append_left _ hcd)
      obtain ⟨t, ht, he⟩ := likeMatch_literal_mem r.key.data _ hmatch c hc_pat hcp hcu
      have hlt : isLowerHexChar t = true := by
        have hall := hkeys r hr
        rw [List.all_eq_true] at hall
        exact hall t ht
      rw [likeFold_lower_hex t hlt] at he
      have hfold : isLowerHexChar (Cache.likeFold c) = true := he ▸ hlt
      have hhex := isHexDigit_of_fold_lower c hfold
      rw [hchex] at hhex
      exact absurd hhex (by simp)
    have hkept : e.store.filter
        (fun r => ¬ Cache.likeMatch ('%' :: (d.data ++ ['%'])) r.key.data) = e.store := by
      apply List.filter_eq_self.mpr
      intro a ha
      simpa using hnomatch a ha
    unfold Cache.clearCache
    simp only [hkept, Nat.sub_self]

/-- An engine with two hex-keyed rows, for the C10 witness. -/
def c10Engine : Cache.Engine :=
  { maxResponseSize := 10485760, compressionThreshold := 1024, maxCacheEntries := 1000,
    ttl := { defaultTtl := 86400, domainMappings := [] },
    store := [{ key := "0a3f", data := [1], headers := [], statusCode := 200,
                createdAt := 0, ttlSeconds := 60, accessCount := 0, lastAccessed := 0 },
              { key := "ffee12", data := [2], headers := [], statusCode := 200,
                createdAt := 0, ttlSeconds := 60, accessCount := 0, lastAccessed := 0 }],
    stats := { hits := 0, misses := 0, evictions := 0, sets := 0, expired := 0,
               compressed := 0, decompressed := 0 } }

/-- C10 witness: a generated key for a concrete GET has 64 hex characters,
and clearing the domain `api.example.com` ('.' is neither hex nor a
wildcard) deletes nothing from a hex-keyed store. -/
theorem clear_cache_unmatchable_domain_witness :
    (Cache.generateCacheKey "GET" c3Url none none).length = 64 ∧
      Cache.clearCache c10Engine (some "api.example.com") = (0, c10Engine) := by
  constructor
  · exact (clear_cache_unmatchable_domain.1 "GET" c3Url none none).1
  · exact clear_cache_unmatchable_domain.2 c10Engine "api.example.com" (by decide)
      ⟨'.', by decide, by decide, by decide, by decide⟩

/-!
Claim C5.  Key invariance under scheme/host case, trailing slash and
query-parameter order (via `_normalize_url`), and under JSON re-encoding
of POST bodies (via `_normalize_request_body`).
-/

theorem strExt {s t : String} (h : s.data = t.data) : s = t := by
  cases s; cases t; cases h; rfl

theorem rstripSlash_append_slash (p : String) :
    Url.rstripSlash (p ++ "/") = Url.rstripSlash p := by
  unfold Url.rstripSlash
  apply congrArg String.mk
  rw [strData_append, show ("/" : String).data = ['/'] from rfl]
  rw [List.reverse_append]
  simp [List.dropWhile_cons]

theorem append_slash_ne_root (p : String) (hp : p ≠ "") : p ++ "/" ≠ "/" := by
  intro h
  have hd := congrArg String.data h
  rw [strData_append, show ("/" : String).data = ['/'] from rfl] at hd
  cases hq : p.data with
  | nil => exact hp (strExt (by rw [hq]))
  | cons c cs =>
    rw [hq] at hd
    simp at hd

theorem normalizePath_append_slash (p : String) :
    Cache.normalizePath (p ++ "/") = Cache.normalizePath p := by
  by_cases hpe : p = ""
  · subst hpe
    rw [show ("" : String) ++ "/" = "/" from rfl]
    decide
  · by_cases hps : p = "/"
    · subst hps
      decide
    · have h1 : p ++ "/" ≠ "/" := append_slash_ne_root p hpe
      unfold Cache.normalizePath
      rw [if_pos h1, if_pos hps, rstripSlash_append_slash]

theorem sortPairs_eq_of_perm {l1 l2 : List (String × String)} (h : l1.Perm l2) :
    Url.sortPairs l1 = Url.sortPairs l2 :=
  List.eq_of_perm_of_sorted
    ((List.perm_insertionSort _ l1).trans (h.trans (List.perm_insertionSort _ l2).symm))
    (List.sorted_insertionSort _ l1) (List.sorted_insertionSort _ l2)

theorem normalizeRequestBody_json (b : List Nat) (s : String) (v : Json.JVal)
    (hne : b ≠ []) (hd : Bytes.utf8Decode b = some s) (hl : Json.jsonLoads s = some v) :
    Cache.normalizeRequestBody b (some "application/json") = Json.dumpsSorted v := by
  unfold Cache.normalizeRequestBody
  rw [if_neg hne,
    if_pos (show Cache.isJsonContentType (some "application/json") = true from by decide)]
  simp only [hd, hl]

/-- C5: cache keys are invariant under scheme case, host case, a trailing
slash on the path, and query-parameter order; and POST keys under a JSON
content type are invariant across bodies that deserialize to the same
JSON value (equal up to object-key order). -/
theorem cache_key_normalization_invariance :
    (∀ u1 u2 : Url.ParsedUrl,
      Bytes.lowerAscii u1.scheme = Bytes.lowerAscii u2.scheme →
      Bytes.lowerAscii u1.netloc = Bytes.lowerAscii u2.netloc →
      (u1.path = u2.path ∨ u2.path = u1.path ++ "/" ∨ u1.path = u2.path ++ "/") →
      (Url.splitChar '&' u1.query.data).Perm (Url.splitChar '&' u2.query.data) →
      u1.params = u2.params →
      u1.fragment = u2.fragment →
      Cache.generateCacheKey "GET" u1 none none = Cache.generateCacheKey "GET" u2 none none) ∧
      (∀ (u : Url.ParsedUrl) (b1 b2 : List Nat) (s1 s2 : String) (v1 v2 : Json.JVal),
        Bytes.utf8Decode b1 = some s1 → Json.jsonLoads s1 = some v1 →
        Bytes.utf8Decode b2 = some s2 → Json.jsonLoads s2 = some v2 →
        Json.canon v1 = Json.canon v2 →
        Cache.generateCacheKey "POST" u (some b1) (some "application/json") =
          Cache.generateCacheKey "POST" u (some b2) (some "application/json")) := by
  constructor
  · intro u1 u2 hs hn hp hq hpar hf
    suffices hnu : Cache.normalizeUrl u1 = Cache.normalizeUrl u2 by
      unfold Cache.generateCacheKey
      rw [hnu]
    have hperm : (Url.parseQsl u1.query).Perm (Url.parseQsl u2.query) := by
      unfold Url.parseQsl
      exact List.Perm.filterMap _ hq
    have hquery : Url.sortPairs (Url.parseQsl u1.query) =
        Url.sortPairs (Url.parseQsl u2.query) := sortPairs_eq_of_perm hperm
    have hpath : Cache.normalizePath u1.path = Cache.normalizePath u2.path := by
      rcases hp with h | h | h
      · rw [h]
      · rw [h, normalizePath_append_slash]
      · rw [h, normalizePath_append_slash]
    unfold Cache.normalizeUrl
    rw [hs, hn, hpar, hf, hquery, hpath]
  · intro u b1 b2 s1 s2 v1 v2 hd1 hl1 hd2 hl2 hc
    have hb1 : b1 ≠ [] := by
      intro h
      subst h
      rw [show Bytes.utf8Decode ([] : List Nat) = some "" from rfl] at hd1
      cases hd1
      rw [show Json.jsonLoads "" = none from rfl] at hl1
      cases hl1
    have hb2 : b2 ≠ [] := by
      intro h
      subst h
      rw [show Bytes.utf8Decode ([] : List Nat) = some "" from rfl] at hd2
      cases hd2
      rw [show Json.jsonLoads "" = none from rfl] at hl2
      cases hl2
    have h1 := normalizeRequestBody_json b1 s1 v1 hb1 hd1 hl1
    have h2 := normalizeRequestBody_json b2 s2 v2 hb2 hd2 hl2
    have hcan : Json.dumpsSorted v1 = Json.dumpsSorted v2 := by
      unfold Json.dumpsSorted
      rw [hc]
    have hcond1 : Bytes.upperAscii "POST" = "POST" ∧ Cache.bodyTruthy (some b1) = true :=
      ⟨by decide, by simpa [Cache.bodyTruthy] using hb1⟩
    have hcond2 : Bytes.upperAscii "POST" = "POST" ∧ Cache.bodyTruthy (some b2) = true :=
      ⟨by decide, by simpa [Cache.bodyTruthy] using hb2⟩
    simp only [Cache.generateCacheKey, Option.getD_some, if_pos hcond1, if_pos hcond2]
    rw [h1, h2, hcan]

/-- C5 witness: concrete URL pairs differing in scheme case, host case,
trailing slash and query order, and concrete JSON bodies differing in
whitespace, share their cache keys. -/
theorem cache_key_normalization_invariance_witness :
    Cache.generateCacheKey "GET"
        { scheme := "HTTP", netloc := "Api.Example.COM", path := "/x/", params := "",
          query := "b=2&a=1", fragment := "" } none none =
      Cache.generateCacheKey "GET"
        { scheme := "http", netloc := "api.example.com", path := "/x", params := "",
          query := "a=1&b=2", fragment := "" } none none ∧
      Cache.generateCacheKey "POST" c3Url (some (Bytes.strBytes "[1, 2]"))
          (some "application/json") =
        Cache.generateCacheKey "POST" c3Url (some (Bytes.strBytes "[1,2]"))
          (some "application/json") := by
  constructor
  · exact cache_key_normalization_invariance.1 _ _ (by decide) (by decide)
      (Or.inr (Or.inr (by decide))) (by decide) rfl rfl
  · exact cache_key_normalization_invariance.2 c3Url _ _ "[1, 2]" "[1,2]"
      (.arr [.num 1, .num 2]) (.arr [.num 1, .num 2]) (by decide) rfl (by decide) rfl rfl

/-!
Claims C4 and C6: behaviour of `set`, eviction, and the `set`-then-`get`
round trip.  The freshly replaced row has the newest `last_accessed` and
sits last in table order, so the stable eviction sort never selects it
while `max_cache_entries ≥ 1`.
-/

theorem orderedInsert_append_last (x a : Cache.Row) (s : List Cache.Row)
    (h : Cache.laLe a x) :
    List.orderedInsert Cache.laLe a (s ++ [x]) = List.orderedInsert Cache.laLe a s ++ [x] := by
  induction s with
  | nil => simp [List.orderedInsert, if_pos h]
  | cons b s' ih =>
    by_cases hb : Cache.laLe a b
    · simp [List.orderedInsert, if_pos hb]
    · simp [List.orderedInsert, if_neg hb, ih]

theorem filter_singleton_of_pos {α : Type} {p : α → Bool} {x : α} (h : p x = true) :
    List.filter p [x] = [x] := by
  simp [List.filter, h]

theorem insertionSort_append_last (s : List Cache.Row) (x : Cache.Row) :
    (∀ a ∈ s, Cache.laLe a x) →
    Cache.sortByLastAccessed (s ++ [x]) = Cache.sortByLastAccessed s ++ [x] := by
  induction s with
  | nil =>
    intro _
    simp [Cache.sortByLastAccessed, List.insertionSort, List.orderedInsert]
  | cons a s' ih =>
    intro h
    have ha : Cache.laLe a x := h a (List.mem_cons_self a s')
    have ih' := ih (fun b hb => h b (List.mem_cons_of_mem a hb))
    unfold Cache.sortByLastAccessed at ih' ⊢
    rw [List.cons_append, List.insertionSort, List.insertionSort, ih']
    exact orderedInsert_append_last x a _ ha

theorem lookupRow_append_last (s : List Cache.Row) (x : Cache.Row)
    (hk : ¬ x.key ∈ s.map Cache.Row.key) :
    Cache.lookupRow (s ++ [x]) x.key = some x := by
  induction s with
  | nil => simp [Cache.lookupRow, List.find?]
  | cons a s' ih =>
    have hne : ¬ a.key = x.key := fun h => hk (by simp [← h])
    have ih' := ih (fun h => hk (by simp [List.map_cons]; right; simpa using h))
    simp only [List.cons_append, Cache.lookupRow, List.find?]
    rw [show (a.key == x.key) = false from by simpa using hne]
    exact ih'

theorem evictGo_preserves_last (fuel maxE : Nat) :
    ∀ (s : List Cache.Row) (x : Cache.Row),
      1 ≤ maxE →
      (∀ a ∈ s, Cache.laLe a x) →
      ¬ x.key ∈ s.map Cache.Row.key →
      Cache.lookupRow (Cache.evictGo fuel maxE (s ++ [x])).1 x.key = some x := by
  induction fuel with
  | zero =>
    intro s x _ _ hk
    exact lookupRow_append_last s x hk
  | succ fuel ih =>
    intro s x hmax hall hk
    unfold Cache.evictGo
    by_cases hcount : (s ++ [x]).length ≤ maxE
    · rw [if_pos hcount]
      exact lookupRow_append_last s x hk
    · rw [if_neg hcount]
      simp only
      set n := (s ++ [x]).length - maxE with hn
      have hsort : Cache.sortByLastAccessed (s ++ [x]) = Cache.sortByLastAccessed s ++ [x] :=
        insertionSort_append_last s x hall
      have hlen : (Cache.sortByLastAccessed s).length = s.length :=
        (List.perm_insertionSort Cache.laLe s).length_eq
      have hnle : n ≤ (Cache.sortByLastAccessed s).length := by
        rw [hlen]
        simp only [hn, List.length_append, List.length_cons, List.length_nil]
        omega
      have htake : (Cache.sortByLastAccessed (s ++ [x])).take n =
          (Cache.sortByLastAccessed s).take n := by
        rw [hsort, List.take_append_of_le_length hnle]
      have hxnot : ¬ x.key ∈ ((Cache.sortByLastAccessed (s ++ [x])).take n).map Cache.Row.key := by
        rw [htake]
        intro hmem
        rw [List.mem_map] at hmem
        obtain ⟨a, ha, hak⟩ := hmem
        have ha' : a ∈ Cache.sortByLastAccessed s := List.mem_of_mem_take ha
        have ha'' : a ∈ s := (List.perm_insertionSort Cache.laLe s).mem_iff.mp ha'
        exact hk (by rw [List.mem_map]; exact ⟨a, ha'', hak⟩)
      have hpredx : (decide (¬ x.key ∈ ((Cache.sortByLastAccessed (s ++ [x])).take n).map
          Cache.Row.key)) = true := by
        simpa using hxnot
      have hfilter : (s ++ [x]).filter
          (fun r => ¬ r.key ∈ ((Cache.sortByLastAccessed (s ++ [x])).take n).map Cache.Row.key) =
          s.filter
            (fun r => ¬ r.key ∈ ((Cache.sortByLastAccessed (s ++ [x])).take n).map Cache.Row.key)
            ++ [x] := by
        rw [List.filter_append,
          @filter_singleton_of_pos Cache.Row
            (fun r => decide (¬ r.key ∈
              List.map Cache.Row.key (List.take n (Cache.sortByLastAccessed (s ++ [x]))))) x hpredx]
      rw [hfilter]
      apply ih
      · exact hmax
      · intro a ha
        exact hall a (List.mem_of_mem_filter ha)
      · intro hmem
        rw [List.mem_map] at hmem
        obtain ⟨a, ha, hak⟩ := hmem
        exact hk (by rw [List.mem_map]; exact ⟨a, List.mem_of_mem_filter ha, hak⟩)

theorem zlibDecompress_compress (bs : List Nat) :
    Cache.zlibDecompress (Cache.zlibCompress bs) = some bs := by
  simp [Cache.zlibCompress, Cache.zlibDecompress]

theorem zlibCompress_take2 (bs : List Nat) :
    (Cache.zlibCompress bs).take 2 = [120, 156] := rfl

/-- The row `set` writes (engine.py lines 250-263): fresh timestamps, zero
access count, resolved TTL, data compressed when above the threshold. -/
def freshRow (e : Cache.Engine) (k : String) (resp : Cache.CachedResponse)
    (dk : Option String) (now : Nat) : Cache.Row :=
  { key := k,
    data := if resp.data.length > e.compressionThreshold
            then Cache.zlibCompress resp.data else resp.data,
    headers := resp.headers, statusCode := resp.statusCode, createdAt := now,
    ttlSeconds := Cache.resolveTtl e resp.ttlSeconds dk,
    accessCount := 0, lastAccessed := now }

theorem set_store_shape (e : Cache.Engine) (k : String) (resp : Cache.CachedResponse)
    (dk : Option String) (now : Nat) (h : ¬ resp.data.length > e.maxResponseSize) :
    (Cache.set e k resp dk now).2.store =
      (Cache.evict e.maxCacheEntries
        ((e.store.filter (fun r => ¬ r.key = k)) ++ [freshRow e k resp dk now])).1 := by
  simp only [Cache.set, if_neg h, freshRow]

theorem get_found_unexpired (E : Cache.Engine) (k : String) (now : Nat) (row : Cache.Row)
    (hrow : Cache.lookupRow E.store k = some row)
    (hexp : ¬ now > row.createdAt + row.ttlSeconds) :
    (Cache.get E k now).1 = some
      { data := if row.data.take 2 = [120, 156] then
                  (match Cache.zlibDecompress row.data with
                   | some d => d
                   | none => row.data)
                else row.data,
        headers := row.headers, statusCode := row.statusCode,
        createdAt := some row.createdAt, ttlSeconds := some row.ttlSeconds,
        accessCount := row.accessCount + 1, lastAccessed := some row.lastAccessed } := by
  simp only [Cache.get, hrow, if_neg hexp]
  by_cases hm : row.data.take 2 = [120, 156]
  · cases hdec : Cache.zlibDecompress row.data <;> simp [hm, hdec]
  · simp [hm]

/-- C4 (amended): for every response within `max_response_size`, stored
into an engine with room (`max_cache_entries ≥ 1`) whose rows carry
`last_accessed` stamps no newer than the store time, and whose data — when
small enough to be stored uncompressed — is not itself a parseable zlib
stream, `set(k, r)` then `get(k)` returns the stored body, headers and
status, with `ttl_seconds` equal to `r.ttl_seconds` when caller-supplied,
else the TTL-manager value for a truthy domain key, else the default TTL.
(A small body that IS a valid zlib stream is wrongly decompressed on read,
so the unrestricted claim fails.) -/
theorem set_get_roundtrip :
    ∀ (e : Cache.Engine) (k : String) (resp : Cache.CachedResponse)
      (dk : Option String) (now : Nat),
      resp.data.length ≤ e.maxResponseSize →
      1 ≤ e.maxCacheEntries →
      (∀ r ∈ e.store, r.lastAccessed ≤ now) →
      (resp.data.length ≤ e.compressionThreshold →
        ¬ (resp.data.take 2 = [120, 156] ∧ (Cache.zlibDecompress resp.data).isSome)) →
      (Cache.set e k resp dk now).1 = true ∧
      ∃ c : Cache.CachedResponse,
        (Cache.get (Cache.set e k resp dk now).2 k now).1 = some c ∧
        c.data = resp.data ∧ c.headers = resp.headers ∧ c.statusCode = resp.statusCode ∧
        (∀ t, resp.ttlSeconds = some t → c.ttlSeconds = some t) ∧
        (resp.ttlSeconds = none → ∀ d, dk = some d → d ≠ "" →
          c.ttlSeconds = some (Cache.getTtlForDomain e.ttl d)) ∧
        (resp.ttlSeconds = none → dk = none → c.ttlSeconds = some e.ttl.defaultTtl) := by
  intro e k resp dk now hsz hmax hla hz
  have hnogt : ¬ resp.data.length > e.maxResponseSize := by omega
  constructor
  · simp only [Cache.set, if_neg hnogt]
  have hlook : Cache.lookupRow (Cache.set e k resp dk now).2.store k =
      some (freshRow e k resp dk now) := by
    rw [set_store_shape e k resp dk now hnogt]
    unfold Cache.evict
    have hall : ∀ a ∈ e.store.filter (fun r => ¬ r.key = k),
        Cache.laLe a (freshRow e k resp dk now) := by
      intro a ha
      exact hla a (List.mem_of_mem_filter ha)
    have hkey : ¬ (freshRow e k resp dk now).key ∈
        (e.store.filter (fun r => ¬ r.key = k)).map Cache.Row.key := by
      intro hmem
      rw [List.mem_map] at hmem
      obtain ⟨a, ha, hak⟩ := hmem
      rw [List.mem_filter] at ha
      exact (of_decide_eq_true ha.2) hak
    exact evictGo_preserves_last _ _ _ _ hmax hall hkey
  have hexp : ¬ now > (freshRow e k resp dk now).createdAt +
      (freshRow e k resp dk now).ttlSeconds := by
    simp only [freshRow]
    omega
  have hget := get_found_unexpired _ k now _ hlook hexp
  refine ⟨{ data := resp.data, headers := resp.headers, statusCode := resp.statusCode,
            createdAt := some now,
            ttlSeconds := some (Cache.resolveTtl e resp.ttlSeconds dk),
            accessCount := 1, lastAccessed := some now }, ?_, rfl, rfl, rfl, ?_, ?_, ?_⟩
  · rw [hget]
    have hdata : (if (freshRow e k resp dk now).data.take 2 = [120, 156] then
        (match Cache.zlibDecompress (freshRow e k resp dk now).data with
         | some d => d
         | none => (freshRow e k resp dk now).data)
      else (freshRow e k resp dk now).data) = resp.data := by
      by_cases hcomp : resp.data.length > e.compressionThreshold
      · have hd : (freshRow e k resp dk now).data = Cache.zlibCompress resp.data := by
          simp [freshRow, hcomp]
        rw [hd, if_pos (zlibCompress_take2 resp.data), zlibDecompress_compress]
      · have hd : (freshRow e k resp dk now).data = resp.data := by
          simp [freshRow, hcomp]
        rw [hd]
        by_cases hmagic : resp.data.take 2 = [120, 156]
        · have hnone : Cache.zlibDecompress resp.data = none := by
            rcases hdec : Cache.zlibDecompress resp.data with _ | d
            · rfl
            · exact absurd ⟨hmagic, by rw [hdec]; rfl⟩ (hz (by omega))
          rw [if_pos hmagic, hnone]
        · rw [if_neg hmagic]
    rw [hdata]
    simp [freshRow]
  · intro t ht
    simp [Cache.resolveTtl, ht]
  · intro hnone d hd hne
    simp [Cache.resolveTtl, hnone, hd, hne]
  · intro hnone hdk
    simp [Cache.resolveTtl, hnone, hdk]

/-- An empty engine with one mapped domain, for C4's examples. -/
def c4Engine : Cache.Engine :=
  { maxResponseSize := 10485760, compressionThreshold := 1024, maxCacheEntries := 1000,
    ttl := { defaultTtl := 86400, domainMappings := [("m", some 123)] },
    store := [],
    stats := { hits := 0, misses := 0, evictions := 0, sets := 0, expired := 0,
               compressed := 0, decompressed := 0 } }

/-- C4 counterexample: a body that is itself a valid zlib stream and small
enough to be stored uncompressed comes back DECOMPRESSED from `get` —
the read-side magic-byte check cannot tell stored-compressed data from
data that merely looks compressed — so the round trip of the claim, which
quantifies over every response within `max_response_size`, fails. -/
theorem c4_zlib_body_counterexample :
    ((Cache.get (Cache.set c4Engine "k"
          { data := Cache.zlibCompress [5], headers := [], statusCode := 200,
            createdAt := none, ttlSeconds := some 60, accessCount := 0,
            lastAccessed := none } none 0).2 "k" 0).1.map Cache.CachedResponse.data) =
        some [5] ∧
      Cache.zlibCompress [5] ≠ [5] := by
  decide

/-- The response stored in the C4 witness. -/
def c4Resp : Cache.CachedResponse :=
  { data := [1, 2, 3], headers := [("Content-Type", "application/json")], statusCode := 200,
    createdAt := none, ttlSeconds := none, accessCount := 0, lastAccessed := none }

/-- C4 witness: storing a plain 3-byte body under domain key `m` (mapped
with TTL override 123) and reading it back at the same instant. -/
theorem set_get_roundtrip_witness :
    (Cache.set c4Engine "k" c4Resp (some "m") 7).1 = true ∧
      ∃ c : Cache.CachedResponse,
        (Cache.get (Cache.set c4Engine "k" c4Resp (some "m") 7).2 "k" 7).1 = some c ∧
        c.data = c4Resp.data ∧ c.headers = c4Resp.headers ∧
        c.statusCode = c4Resp.statusCode ∧
        (∀ t, c4Resp.ttlSeconds = some t → c.ttlSeconds = some t) ∧
        (c4Resp.ttlSeconds = none → ∀ d, (some "m" : Option String) = some d → d ≠ "" →
          c.ttlSeconds = some (Cache.getTtlForDomain c4Engine.ttl d)) ∧
        (c4Resp.ttlSeconds = none → (some "m" : Option String) = none →
          c.ttlSeconds = some c4Engine.ttl.defaultTtl) :=
  set_get_roundtrip c4Engine "k" c4Resp (some "m") 7 (by decide) (by decide)
    (by intro r hr; cases hr) (by decide)

theorem evictGo_of_le (fuel maxE : Nat) (store : List Cache.Row)
    (h : store.length ≤ maxE) : Cache.evictGo fuel maxE store = (store, 0) := by
  cases fuel with
  | zero => rfl
  | succ f =>
    unfold Cache.evictGo
    rw [if_pos h]

/-- One-pass characterization of `_evict_if_needed` on a table with unique
keys: nothing happens at or below the limit; above it, exactly
`count - max_cache_entries` rows are deleted, the survivors number exactly
`max_cache_entries`, each deletion is counted, and every deleted row's
`last_accessed` is no newer than every survivor's. -/
theorem evict_exact (maxE : Nat) (store : List Cache.Row)
    (hnd : (store.map Cache.Row.key).Nodup) :
    (store.length ≤ maxE → Cache.evict maxE store = (store, 0)) ∧
      (store.length > maxE →
        (Cache.evict maxE store).1.length = maxE ∧
          (Cache.evict maxE store).2 = store.length - maxE ∧
          (∀ r1 ∈ store, r1 ∉ (Cache.evict maxE store).1 →
            ∀ r2 ∈ (Cache.evict maxE store).1, r1.lastAccessed ≤ r2.lastAccessed)) := by
  constructor
  · intro h
    exact evictGo_of_le _ _ _ h
  intro hgt
  have hsortperm : (Cache.sortByLastAccessed store).Perm store :=
    List.perm_insertionSort Cache.laLe store
  have hsortlen : (Cache.sortByLastAccessed store).length = store.length := hsortperm.length_eq
  have hsortnd : ((Cache.sortByLastAccessed store).map Cache.Row.key).Nodup :=
    (hsortperm.map Cache.Row.key).nodup_iff.mpr hnd
  have hinj := List.inj_on_of_nodup_map hsortnd
  set n := store.length - maxE with hndef
  set ks := ((Cache.sortByLastAccessed store).take n).map Cache.Row.key with hksdef
  set pred : Cache.Row → Bool := fun r => decide (¬ r.key ∈ ks) with hpreddef
  have hsplit : (Cache.sortByLastAccessed store).take n ++ (Cache.sortByLastAccessed store).drop n =
      Cache.sortByLastAccessed store := List.take_append_drop n _
  have hdisj : (((Cache.sortByLastAccessed store).take n).map Cache.Row.key).Disjoint
      (((Cache.sortByLastAccessed store).drop n).map Cache.Row.key) := by
    have : ((((Cache.sortByLastAccessed store).take n) ++
        ((Cache.sortByLastAccessed store).drop n)).map Cache.Row.key).Nodup := by
      rw [hsplit]; exact hsortnd
    rw [List.map_append] at this
    exact (List.nodup_append.mp this).2.2
  have hfilter_take : ((Cache.sortByLastAccessed store).take n).filter pred = [] := by
    rw [List.filter_eq_nil_iff]
    intro a ha
    simp only [hpreddef, decide_eq_true_eq, not_not]
    exact List.mem_map_of_mem Cache.Row.key ha
  have hfilter_drop : ((Cache.sortByLastAccessed store).drop n).filter pred =
      (Cache.sortByLastAccessed store).drop n := by
    rw [List.filter_eq_self]
    intro b hb
    simp only [hpreddef, decide_eq_true_eq]
    intro hbk
    exact hdisj hbk (List.mem_map_of_mem Cache.Row.key hb)
  have hkept_perm : (store.filter pred).Perm ((Cache.sortByLastAccessed store).drop n) := by
    have h1 : (store.filter pred).Perm ((Cache.sortByLastAccessed store).filter pred) :=
      (hsortperm.symm).filter pred
    rw [← hsplit, List.filter_append, hfilter_take, hfilter_drop, List.nil_append] at h1
    rw [← hsplit] at h1 ⊢
    simpa using h1
  have hkeptlen : (store.filter pred).length = maxE := by
    rw [hkept_perm.length_eq, List.length_drop, hsortlen]
    omega
  have hsorted : List.Pairwise Cache.laLe (Cache.sortByLastAccessed store) :=
    List.sorted_insertionSort Cache.laLe store
  have hpair := List.pairwise_append.mp (hsplit ▸ hsorted)
  have hmem_take : ∀ r1 ∈ store, ¬ pred r1 = true →
      r1 ∈ (Cache.sortByLastAccessed store).take n := by
    intro r1 hr1 hp
    simp only [hpreddef, decide_eq_true_eq, not_not] at hp
    rw [hksdef, List.mem_map] at hp
    obtain ⟨a, ha, hak⟩ := hp
    have ha' : a ∈ Cache.sortByLastAccessed store := List.mem_of_mem_take ha
    have hr1' : r1 ∈ Cache.sortByLastAccessed store := hsortperm.mem_iff.mpr hr1
    rw [hinj ha' hr1' hak] at ha
    exact ha
  have hstep : Cache.evict maxE store = (store.filter pred, n) := by
    unfold Cache.evict Cache.evictGo
    rw [if_neg (by omega)]
    simp only [← hndef, ← hksdef, ← hpreddef]
    rw [evictGo_of_le _ _ _ (le_of_eq hkeptlen)]
    simp
  rw [hstep]
  refine ⟨hkeptlen, rfl, ?_⟩
  intro r1 hr1 hnotin r2 hr2
  have hp1 : ¬ pred r1 = true := by
    intro hp
    exact hnotin (List.mem_filter.mpr ⟨hr1, hp⟩)
  have h1 : r1 ∈ (Cache.sortByLastAccessed store).take n := hmem_take r1 hr1 hp1
  have h2 : r2 ∈ (Cache.sortByLastAccessed store).drop n := hkept_perm.mem_iff.mp hr2
  exact hpair.2.2 r1 h1 r2 h2

theorem set_stats_evictions_shape (e : Cache.Engine) (k : String)
    (resp : Cache.CachedResponse) (dk : Option String) (now : Nat)
    (h : ¬ resp.data.length > e.maxResponseSize) :
    (Cache.set e k resp dk now).2.stats.evictions =
      e.stats.evictions +
        (Cache.evict e.maxCacheEntries
          ((e.store.filter (fun r => ¬ r.key = k)) ++ [freshRow e k resp dk now])).2 := by
  simp only [Cache.set, if_neg h, freshRow]

theorem mid_keys_nodup (e : Cache.Engine) (k : String) (resp : Cache.CachedResponse)
    (dk : Option String) (now : Nat) (h : (e.store.map Cache.Row.key).Nodup) :
    (((e.store.filter (fun r => ¬ r.key = k)) ++ [freshRow e k resp dk now]).map
      Cache.Row.key).Nodup := by
  rw [List.map_append, List.nodup_append]
  refine ⟨((List.filter_sublist e.store).map Cache.Row.key).nodup h,
    List.nodup_singleton _, ?_⟩
  intro a ha hb
  rw [List.mem_map] at ha
  obtain ⟨r, hr, hrk⟩ := ha
  rw [List.mem_filter] at hr
  have : a = k := by
    simpa [freshRow] using hb
  exact (of_decide_eq_true hr.2) (hrk.trans this)

/-- C6: a successful `set` always concludes with at most
`max_cache_entries` rows; when the replaced table would exceed the limit,
rows are deleted in ascending `last_accessed` order until the count equals
the limit exactly, each deletion bumping `stats.evictions` by one
(`stats.evictions` grows by exactly the number of deleted rows); at or
below the limit, nothing is deleted. -/
theorem set_respects_entry_limit :
    ∀ (e : Cache.Engine) (k : String) (resp : Cache.CachedResponse)
      (dk : Option String) (now : Nat),
      (e.store.map Cache.Row.key).Nodup →
      resp.data.length ≤ e.maxResponseSize →
      (Cache.set e k resp dk now).2.store.length ≤ e.maxCacheEntries ∧
        ((e.store.filter (fun r => ¬ r.key = k)).length + 1 > e.maxCacheEntries →
          (Cache.set e k resp dk now).2.store.length = e.maxCacheEntries ∧
            (Cache.set e k resp dk now).2.stats.evictions =
              e.stats.evictions +
                ((e.store.filter (fun r => ¬ r.key = k)).length + 1 - e.maxCacheEntries)) ∧
        ((e.store.filter (fun r => ¬ r.key = k)).length + 1 ≤ e.maxCacheEntries →
          (Cache.set e k resp dk now).2.store =
              (e.store.filter (fun r => ¬ r.key = k)) ++ [freshRow e k resp dk now] ∧
            (Cache.set e k resp dk now).2.stats.evictions = e.stats.evictions) ∧
        (∀ r1 ∈ (e.store.filter (fun r => ¬ r.key = k)) ++ [freshRow e k resp dk now],
          r1 ∉ (Cache.set e k resp dk now).2.store →
          ∀ r2 ∈ (Cache.set e k resp dk now).2.store,
            r1.lastAccessed ≤ r2.lastAccessed) := by
  intro e k resp dk now hnd hsz
  have hnogt : ¬ resp.data.length > e.maxResponseSize := by omega
  have hmidnd := mid_keys_nodup e k resp dk now hnd
  have hshape := set_store_shape e k resp dk now hnogt
  have hstats := set_stats_evictions_shape e k resp dk now hnogt
  have hmidlen : ((e.store.filter (fun r => ¬ r.key = k)) ++
      [freshRow e k resp dk now]).length =
      (e.store.filter (fun r => ¬ r.key = k)).length + 1 := by
    rw [List.length_append]
    rfl
  obtain ⟨hle, hgt⟩ := evict_exact e.maxCacheEntries _ hmidnd
  by_cases hover : (e.store.filter (fun r => ¬ r.key = k)).length + 1 > e.maxCacheEntries
  · obtain ⟨hl1, hl2, hord⟩ := hgt (by omega)
    refine ⟨?_, fun _ => ⟨?_, ?_⟩, fun hcon => absurd hover (by omega), ?_⟩
    · rw [hshape, hl1]
    · rw [hshape, hl1]
    · rw [hstats, hl2, hmidlen]
    · intro r1 hr1 hnotin r2 hr2
      rw [hshape] at hnotin hr2
      exact hord r1 hr1 hnotin r2 hr2
  · have heq := hle (by omega)
    have hstore_eq : (Cache.set e k resp dk now).2.store =
        (e.store.filter (fun r => ¬ r.key = k)) ++ [freshRow e k resp dk now] := by
      rw [hshape, heq]
    have hev0 : (Cache.evict e.maxCacheEntries
        ((e.store.filter (fun r => ¬ r.key = k)) ++ [freshRow e k resp dk now])).2 = 0 := by
      rw [heq]
    refine ⟨?_, fun hcon => absurd hcon (by omega), fun _ => ⟨hstore_eq, ?_⟩, ?_⟩
    · rw [hstore_eq]
      omega
    · rw [hstats, hev0]
      omega
    · intro r1 hr1 hnotin r2 hr2
      rw [hstore_eq] at hnotin
      exact absurd hr1 hnotin

/-- A two-row engine at its entry limit, for the C6 witness. -/
def c6Engine : Cache.Engine :=
  { maxResponseSize := 100, compressionThreshold := 1024, maxCacheEntries := 2,
    ttl := { defaultTtl := 86400, domainMappings := [] },
    store := [{ key := "a", data := [1], headers := [], statusCode := 200,
                createdAt := 0, ttlSeconds := 60, accessCount := 0, lastAccessed := 5 },
              { key := "b", data := [2], headers := [], statusCode := 200,
                createdAt := 0, ttlSeconds := 60, accessCount := 0, lastAccessed := 3 }],
    stats := { hits := 0, misses := 0, evictions := 0, sets := 0, expired := 0,
               compressed := 0, decompressed := 0 } }

/-- The response stored in the C6 witness. -/
def c6Resp : Cache.CachedResponse :=
  { data := [9], headers := [], statusCode := 200, createdAt := none,
    ttlSeconds := some 60, accessCount := 0, lastAccessed := none }

/-- C6 witness: storing a third row into a two-entry-limit engine holding
two rows evicts exactly one row, oldest-`last_accessed` first. -/
theorem set_respects_entry_limit_witness :
    (Cache.set c6Engine "c" c6Resp none 10).2.store.length ≤ c6Engine.maxCacheEntries ∧
      ((c6Engine.store.filter (fun r => ¬ r.key = "c")).length + 1 > c6Engine.maxCacheEntries →
        (Cache.set c6Engine "c" c6Resp none 10).2.store.length = c6Engine.maxCacheEntries ∧
          (Cache.set c6Engine "c" c6Resp none 10).2.stats.evictions =
            c6Engine.stats.evictions +
              ((c6Engine.store.filter (fun r => ¬ r.key = "c")).length + 1 -
                c6Engine.maxCacheEntries)) ∧
      ((c6Engine.store.filter (fun r => ¬ r.key = "c")).length + 1 ≤ c6Engine.maxCacheEntries →
        (Cache.set c6Engine "c" c6Resp none 10).2.store =
            (c6Engine.store.filter (fun r => ¬ r.key = "c")) ++
              [freshRow c6Engine "c" c6Resp none 10] ∧
          (Cache.set c6Engine "c" c6Resp none 10).2.stats.evictions =
            c6Engine.stats.evictions) ∧
      (∀ r1 ∈ (c6Engine.store.filter (fun r => ¬ r.key = "c")) ++
          [freshRow c6Engine "c" c6Resp none 10],
        r1 ∉ (Cache.set c6Engine "c" c6Resp none 10).2.store →
        ∀ r2 ∈ (Cache.set c6Engine "c" c6Resp none 10).2.store,
          r1.lastAccessed ≤ r2.lastAccessed) :=
  set_respects_entry_limit c6Engine "c" c6Resp none 10 (by decide) (by decide)

/-!
Claim C1: the cache-first invariant of the request pipeline (handler.py
lines 311-430): a GET/POST request on a matched domain whose key is found
unexpired in the cache is answered entirely from the cache, with
`record_request` and `should_throttle` never called.
-/

/-- C1: for every matched GET or POST request whose computed cache key is
found unexpired by `CacheEngine.get`, the pipeline responds with the
cached status, headers and body and terminates with zero
`record_request` and zero `should_throttle` calls. -/
theorem cache_hit_bypasses_throttling :
    ∀ (cfg : Throttle.TConfig)
      (upstream : String → Url.ParsedUrl → Option (List Nat) →
        List Nat × Nat × List (String × String))
      (method : String) (target : Url.ParsedUrl) (contentType : Option String)
      (rawBody : Option (List Nat)) (domain : String) (now : Nat)
      (engine : Cache.Engine) (states : List (String × Throttle.TState))
      (c : Cache.CachedResponse) (engine' : Cache.Engine),
      (method = "GET" ∨ method = "POST") →
      Cache.get engine
          (Cache.generateCacheKey method target
            (if method = "POST" then rawBody else none) contentType) now =
        (some c, engine') →
      Pipeline.handleMatched cfg upstream method target contentType rawBody domain now
          engine states =
        { status := c.statusCode, headers := c.headers, body := c.data,
          engine := engine', states := states, recordCalls := 0, shouldCalls := 0 } := by
  intro cfg upstream method target contentType rawBody domain now engine states c engine'
    hm hget
  simp only [Pipeline.handleMatched, if_pos hm, hget]

/-- The cache key of the C1 witness request. -/
def c1Key : String := Cache.generateCacheKey "GET" c3Url none none

/-- An engine holding an unexpired entry for the C1 witness request. -/
def c1Engine : Cache.Engine :=
  { maxResponseSize := 10485760, compressionThreshold := 1024, maxCacheEntries := 1000,
    ttl := { defaultTtl := 86400, domainMappings := [] },
    store := [{ key := c1Key, data := [7, 8], headers := [("X-Test", "y")],
                statusCode := 200, createdAt := 0, ttlSeconds := 60,
                accessCount := 0, lastAccessed := 0 }],
    stats := { hits := 0, misses := 0, evictions := 0, sets := 0, expired := 0,
               compressed := 0, decompressed := 0 } }

/-- The same engine after the hit's read-side counter updates. -/
def c1EngineAfter : Cache.Engine :=
  { maxResponseSize := 10485760, compressionThreshold := 1024, maxCacheEntries := 1000,
    ttl := { defaultTtl := 86400, domainMappings := [] },
    store := [{ key := c1Key, data := [7, 8], headers := [("X-Test", "y")],
                statusCode := 200, createdAt := 0, ttlSeconds := 60,
                accessCount := 1, lastAccessed := 0 }],
    stats := { hits := 1, misses := 0, evictions := 0, sets := 0, expired := 0,
               compressed := 0, decompressed := 0 } }

/-- The cached response the C1 witness hit returns. -/
def c1Resp : Cache.CachedResponse :=
  { data := [7, 8], headers := [("X-Test", "y")], statusCode := 200,
    createdAt := some 0, ttlSeconds := some 60, accessCount := 1, lastAccessed := some 0 }

/-- C1 witness: a concrete matched GET served from the cache with zero
throttle accounting. -/
theorem cache_hit_bypasses_throttling_witness :
    Pipeline.handleMatched { defaultLimit := 1000, maxDelay := 300, domainLimits := [] }
        (fun _ _ _ => ([], 200, [])) "GET" c3Url none none "m" 0 c1Engine [] =
      { status := c1Resp.statusCode, headers := c1Resp.headers, body := c1Resp.data,
        engine := c1EngineAfter, states := [], recordCalls := 0, shouldCalls := 0 } :=
  cache_hit_bypasses_throttling
    { defaultLimit := 1000, maxDelay := 300, domainLimits := [] }
    (fun _ _ _ => ([], 200, [])) "GET" c3Url none none "m" 0 c1Engine [] c1Resp
    c1EngineAfter (Or.inl rfl) (by decide)
